import Mathlib

/-!
Verification development for `gimple2rdf.py`: a serializer that walks the
object graph of a compiler intermediate representation and prints RDF-like
triples.  The Python source is embedded shallowly:

* Python values reachable by the traversal become the inductive type `Value`
  (booleans, ints, strings, `None`, callables, object references, and
  lists/tuples).  Because the object graph may contain cycles, objects live in
  an explicit `heap : List Obj` and are referenced by index (`Value.vRef`);
  a reference's index plays the role of the CPython object identity `id(obj)`.
* `float` values are not modelled (no claim depends on them).
* Python's builtin `hash` on strings and on tuples is opaque; it is passed in
  as parameters `hashStr` / `hashTuple`.  `hash` of small ints in CPython is
  the int itself; only strings and attribute tuples are hashed by the source.
* The module-level configuration (`WHITELIST`) is a parameter `wlRaw`, with
  the repository's concrete table given as `WHITELIST_RAW`; the derived
  structures (`SHOULD_BE_SUPPRESSED`, the bracket-less whitelist) are computed
  from it exactly as the source does.
* `str.__repr__` is modelled for strings without quotes/escapes (no claim
  depends on escaping).
* The `while open` loop is given explicit fuel; termination (claim C7) shows
  sufficient fuel always exists.
-/

mutual
/-- Python values handled by the traversal.  `vRef i` is a reference to the
heap object with index `i` (its identity); `vCallable` stands for a
callable/behavioral attribute; `vList` is a `list`/`tuple`.  `VList` is the
list spine, kept as a mutual inductive so that all recursion over values is
structural. -/
inductive Value where
  | vBool (b : Bool)
  | vInt (n : Int)
  | vStr (s : String)
  | vNull
  | vCallable
  | vRef (i : Nat)
  | vList (elems : VList)

inductive VList where
  | nil
  | cons (head : Value) (tail : VList)
end

/-- Spine of a `VList` as an ordinary Lean list (used when the source iterates
`for entry in obj`). -/
def VList.toList : VList → List Value
  | .nil => []
  | .cons v t => v :: VList.toList t

/-- A heap object: its runtime type name (`type(obj).__name__`), its named
attributes in `dir` order with their `getattr` values, the `str_no_uid`
attribute when the object has one (it is a string on GIMPLE statements; the
source reads it directly, while property iteration never sees it because
`"str_no_uid"` is in `BLACKLIST`), and the object id.  The `objId` of the heap
object at index `i` is `i` plus `objIdBase`, mirroring that distinct live
Python objects have distinct `id`s. -/
structure Obj where
  typeName : String
  attrs : List (String × Value)
  strNoUid : Option String

/-- `id(None)`: a fixed identity for the unique `None` object. -/
def noneId : Nat := 0

/-- Object ids of heap objects start here, so they never collide with
`noneId`. -/
def objIdBase : Nat := 1

/-- `id` of the heap object at index `i`. -/
def objIdAt (i : Nat) : Nat := objIdBase + i

/-- The global property blacklist of the source. -/
def BLACKLIST : List String :=
  ["unsigned_equivalent", "signed_equivalent", "sizeof",
   "fullname", "callgraph_node", "str_no_uid"]

/-- A raw whitelist entry: either the `ALL` sentinel or an explicit list of
property names, some of them bracket-marked for suppression. -/
inductive WlEntryRaw where
  | all
  | names (l : List String)

/-- `to_be_suppressed`: the property name is bracket-marked. -/
def to_be_suppressed (w : String) : Bool :=
  w.front == '(' && w.back == ')'

/-- `w[1:-1]`: strip the first and last character. -/
def stripBrackets (w : String) : String :=
  (w.drop 1).dropRight 1

/-- `filter_whitelist`: keep `ALL`, otherwise strip the bracket marks. -/
def filter_whitelist : WlEntryRaw → WlEntryRaw
  | .all => .all
  | .names wl => .names (wl.map fun w => if to_be_suppressed w then stripBrackets w else w)

/-- `SHOULD_BE_SUPPRESSED`: the (type, bare property) pairs that are
traversed but never expressed in RDF. -/
def should_be_suppressed (wlRaw : List (String × WlEntryRaw)) : List (String × String) :=
  wlRaw.foldr (fun te acc =>
    match te.2 with
    | .all => acc
    | .names wl => ((wl.filter to_be_suppressed).map fun w => (te.1, stripBrackets w)) ++ acc) []

/-- The bracket-less `WHITELIST` actually used for matching properties. -/
def whitelist (wlRaw : List (String × WlEntryRaw)) : List (String × WlEntryRaw) :=
  wlRaw.map fun te => (te.1, filter_whitelist te.2)

/-- The repository's concrete `WHITELIST` (before bracket-stripping). -/
def WHITELIST_RAW : List (String × WlEntryRaw) :=
  [("BasicBlock", .names ["gimple", "(succs)", "(preds)"]),
   ("Edge", .names ["src", "dest"]),
   ("GimpleAssign", .names ["lhs", "loc", "rhs"]),
   ("SsaName", .names ["def_stmt"]),
   ("ArrayRef", .names ["array", "index", "location"]),
   ("IntegerCst", .names ["constant"]),
   ("MemRef", .names ["location", "operand"]),
   ("ParmDecl", .names ["location", "name"]),
   ("Location", .names ["file", "line"]),
   ("GimpleCond", .names ["block", "lhs", "loc", "rhs"]),
   ("AddrExpr", .names ["location", "operand"]),
   ("GimpleCall", .names ["args", "block", "fn", "fndecl", "loc", "noreturn", "rhs"]),
   ("GimpleReturn", .names ["block", "loc"]),
   ("GimpleLabel", .names ["label"]),
   ("LabelDecl", .names ["location"]),
   ("VarDecl", .names ["location", "name"]),
   ("FunctionDecl", .names ["arguments", "function", "location", "name", "result"]),
   ("Function", .names ["cfg", "decl", "end", "local_decls"]),
   ("Cfg", .names ["basic_blocks", "entry", "exit"])]

/-- `TYPE_BLACKLIST`: type names whose instances are never expanded. -/
def TYPE_BLACKLIST : List String :=
  ["PointerType", "IntegerType", "VoidType", "RealType", "BooleanType", "TypeDecl"]

/-- `str.startswith`: the kernel-reducible model used for the dunder test
(`List.take` on the character data; equivalent to `String.startsWith`). -/
def pyStartswith (s pre : String) : Bool :=
  s.data.take pre.data.length == pre.data

/-- `getattr(o, p)` via the attribute table (attributes absent from the table
behave as `None`; the source only reads attributes that exist). -/
def getattrV (o : Obj) (p : String) : Value :=
  (o.attrs.lookup p).getD Value.vNull

/-- The `None` object: `repr_obj` reaching the node branch on `None` treats it
as an object of type `NoneType` with no interesting attributes. -/
def noneObj : Obj := { typeName := "NoneType", attrs := [], strNoUid := none }

/-- Object and identity denoted by a value in node position: a reference
resolves into the heap (the embedding only ever resolves in-range references),
everything else that can reach the node branch behaves like the `None`
object.  The second component is `id(obj)`. -/
def objOfValue (heap : List Obj) : Value → Obj × Nat
  | .vRef i => (heap.getD i noneObj, objIdAt i)
  | _ => (noneObj, noneId)

/-- The inner `propnames` table of `make_uri`. -/
def propnamesFor (t : String) : Option (List String) :=
  if t = "BasicBlock" then some ["index"]
  else if t = "FunctionDecl" then some ["name"]
  else if t = "Location" then some ["column", "line", "file"]
  else none

/-- Rendering of an attribute by Python's `str.format` (`"{}"`): strings
verbatim, ints in decimal.  Only string/int attributes are formatted by the
source (`name`, `file`, `line`). -/
def fmtV : Value → String
  | .vStr s => s
  | .vInt n => toString n
  | .vBool b => if b then "True" else "False"
  | _ => "None"

section Engine

variable (hashStr : String → Nat) (hashTuple : List (String × Value) → Nat)

/-- The entity kinds minted with globally scoped URIs (the two leading
`isinstance` tests of `make_uri`). -/
def isGlobalKind (o : Obj) : Bool :=
  o.typeName == "FunctionDecl" || o.typeName == "Location"

/-- The identity hash of a non-global object (lines computing `h` in
`make_uri`): `hash(obj.str_no_uid)` when that attribute exists, else the hash
of the `propnames` tuple when the type is in the inner table, else
`id(obj)`. -/
def hash_of (o : Obj) (oid : Nat) : Nat :=
  match o.strNoUid with
  | some s => hashStr s
  | none =>
    match propnamesFor o.typeName with
    | some ps => hashTuple (ps.map fun p => (p, getattrV o p))
    | none => oid

/-- `make_uri`: mints the URI for an object with identity `oid`, threading the
`hashes` table (`hash value → sequential identifier`, in insertion order).
`FunctionDecl` and `Location` get globally scoped URIs; otherwise the identity
hash is looked up and, on first sight, assigned `len(hashes) + 1`. -/
def make_uri (pfx : String) (hs : List (Nat × Nat)) (o : Obj) (oid : Nat) :
    String × List (Nat × Nat) :=
  if o.typeName = "FunctionDecl" then
    ("functions:" ++ fmtV (getattrV o "name"), hs)
  else if o.typeName = "Location" then
    ("<file://" ++ fmtV (getattrV o "file") ++ "#" ++ fmtV (getattrV o "line") ++ ">", hs)
  else
    let h : Nat := hash_of hashStr hashTuple o oid
    match hs.lookup h with
    | some identifier => (pfx ++ ":" ++ o.typeName ++ "_" ++ toString identifier, hs)
    | none =>
      (pfx ++ ":" ++ o.typeName ++ "_" ++ toString (hs.length + 1), hs ++ [(h, hs.length + 1)])

/-- `repr_literal`: string representation of a literal, or `None` (the
omission sentinel) when the value is `None` or not a literal. -/
def repr_literal : Value → Option String
  | .vBool b => some (if b then "true" else "false")
  | .vInt n => some (toString n)
  | .vStr s => some ("'" ++ s ++ "'")
  | _ => none

mutual
/-- `repr_obj`: representation of a value together with its classification
(`"literal"`, `"list"` or `"node"`), threading the `hashes` table (minting
URIs mutates it).  The source tests `repr_literal` before the list check;
since a list is never a literal, matching the list constructor first is
behavior-preserving (and lets the recursion be structural). -/
def repr_obj (pfx : String) (heap : List Obj) (hs : List (Nat × Nat)) :
    Value → String × String × List (Nat × Nat)
  | .vList l =>
    match l with
    | .nil => ("nil", "literal", hs)
    | .cons _ _ =>
      let (rs, hs1) := reprVList pfx heap hs l
      ("(" ++ String.intercalate " " rs ++ ")", "list", hs1)
  | v =>
    match repr_literal v with
    | some r => (r, "literal", hs)
    | none =>
      let (o, oid) := objOfValue heap v
      let (u, hs1) := make_uri hashStr hashTuple pfx hs o oid
      (u, "node", hs1)

/-- Representations of the elements of a list, left to right (the generator
inside `" ".join(...)`). -/
def reprVList (pfx : String) (heap : List Obj) (hs : List (Nat × Nat)) :
    VList → List String × List (Nat × Nat)
  | .nil => ([], hs)
  | .cons v vs =>
    let (r, _, hs1) := repr_obj pfx heap hs v
    let (rs, hs2) := reprVList pfx heap hs1 vs
    (r :: rs, hs2)
end

/-- The value is the `None` object (`e is None`). -/
def isNoneV : Value → Bool
  | .vNull => true
  | _ => false

/-- The value is a callable (`isinstance(e, Callable)`). -/
def isCallableV : Value → Bool
  | .vCallable => true
  | _ => false

/-- One yielded triple of `iter_relevant_props`: the property name (mangled by
`p[1:-1]` when suppressed), its value, and the `express` flag. -/
def yieldEntry (wlRaw : List (String × WlEntryRaw)) (t p : String) (e : Value) :
    String × Value × Bool :=
  let express := !((should_be_suppressed wlRaw).contains (t, p))
  (if express then p else stripBrackets p, e, express)

/-- `iter_relevant_props`: the non-dunder, non-blacklisted, non-callable,
non-`None` attributes admitted by the whitelist for the object's type (a
whitelist miss yields nothing).  The source's `dict` branch never arises for
the objects of this graph. -/
def iter_relevant_props (wlRaw : List (String × WlEntryRaw)) (o : Obj) :
    List (String × Value × Bool) :=
  let it := o.attrs.filter fun pe => !(pyStartswith pe.1 "__") && !(BLACKLIST.contains pe.1)
  let it := it.filter fun pe => !(isCallableV pe.2)
  let it := it.filter fun pe => !(isNoneV pe.2)
  match (whitelist wlRaw).lookup o.typeName with
  | none => []
  | some .all => it.map fun pe => yieldEntry wlRaw o.typeName pe.1 pe.2
  | some (.names l) =>
    (it.filter fun pe => l.contains pe.1).map fun pe => yieldEntry wlRaw o.typeName pe.1 pe.2

/-- `isinstance(obj, TYPE_BLACKLIST)` for a worklist value: only an object
reference can be an instance of one of the blacklisted gcc type classes. -/
def isBlacklistedV (heap : List Obj) : Value → Bool
  | .vRef i => TYPE_BLACKLIST.contains (heap.getD i noneObj).typeName
  | _ => false

/-- Elements of a list value (used by `for entry in obj`). -/
def elemsOf : Value → List Value
  | .vList l => l.toList
  | _ => []

/-- The mutable traversal state: the `open` worklist (head is the next item
popped — Python pops from and appends to the end of its list), the `closed`
insertion-ordered map `uri → value`, and the `hashes` table. -/
structure TState where
  openL : List Value
  closed : List (String × Value)
  hashes : List (Nat × Nat)

variable (wlRaw : List (String × WlEntryRaw))

/-- `solve_node`: process one popped value; `none` models the `assert False`
branch for an unclassifiable value. -/
def solve_node (pfx : String) (heap : List Obj) (v : Value) (s : TState) : Option TState :=
  if isBlacklistedV heap v then some s
  else
    let (r, objType, hs1) := repr_obj hashStr hashTuple pfx heap s.hashes v
    if objType = "literal" then some { s with hashes := hs1 }
    else if objType = "list" then
      some { s with hashes := hs1, openL := (elemsOf v).reverse ++ s.openL }
    else if objType = "node" then
      if (s.closed.map Prod.fst).contains r then some { s with hashes := hs1 }
      else
        let pushes := (iter_relevant_props wlRaw (objOfValue heap v).1).map fun x => x.2.1
        some { s with hashes := hs1,
                      closed := s.closed ++ [(r, v)],
                      openL := pushes.reverse ++ s.openL }
    else none

/-- `is_rdf_none`. -/
def is_rdf_none (v : Value) : Bool := isNoneV v

/-- `yield_triples`: the statements emitted for one closed node — its type
assertion, then one statement per expressed, non-`None` property — threading
the `hashes` table. -/
def yield_triples (pfx : String) (heap : List Obj) (node : Value) (hs : List (Nat × Nat)) :
    List String × List (Nat × Nat) :=
  let (rn, _, hs1) := repr_obj hashStr hashTuple pfx heap hs node
  let o := (objOfValue heap node).1
  (iter_relevant_props wlRaw o).foldl
    (fun acc pve =>
      if pve.2.2 && !(is_rdf_none pve.2.1) then
        let (r, _, hs2) := repr_obj hashStr hashTuple pfx heap acc.2 pve.2.1
        (acc.1 ++ [rn ++ " gcc:" ++ pve.1 ++ " " ++ r ++ "."], hs2)
      else acc)
    ([rn ++ " a gcc:" ++ o.typeName ++ "."], hs1)

/-- The `while open` loop, with explicit fuel. -/
def runLoop (pfx : String) (heap : List Obj) : Nat → TState → Option TState
  | 0, s => some s
  | fuel + 1, s =>
    match s.openL with
    | [] => some s
    | v :: rest =>
      match solve_node hashStr hashTuple wlRaw pfx heap v { s with openL := rest } with
      | none => none
      | some s1 => runLoop pfx heap fuel s1

/-- The initial traversal state for a root value. -/
def initState (start : Value) : TState :=
  { openL := [start], closed := [], hashes := [] }

/-- `iter_triples`: run the worklist loop to completion (`none` if the fuel
does not suffice or an assertion fires), then emit the statements of every
closed node in registration order. -/
def iter_triples (fuel : Nat) (pfx : String) (heap : List Obj) (start : Value) :
    Option (List String) :=
  match runLoop hashStr hashTuple wlRaw pfx heap fuel (initState start) with
  | none => none
  | some s =>
    if s.openL.isEmpty then
      some (s.closed.foldl
        (fun acc rv =>
          let (lines, hs1) := yield_triples hashStr hashTuple wlRaw pfx heap rv.2 acc.2
          (acc.1 ++ lines, hs1))
        (([] : List String), s.hashes)).1
    else none

end Engine

/-! ### Auxiliary notions used by the verification (not part of the source) -/

mutual
/-- Structural size of a value (positive; a list weighs one more than the sum
of its elements).  Used only for the termination measure. -/
def vsize : Value → Nat
  | .vList l => 1 + VList.lsize l
  | _ => 1

/-- Structural size of a list spine. -/
def VList.lsize : VList → Nat
  | .nil => 0
  | .cons v t => vsize v + VList.lsize t
end

/-- Total size of a worklist. -/
def sumSize (l : List Value) : Nat := l.foldr (fun v a => vsize v + a) 0

mutual
/-- One more than the largest heap index referenced inside a value (zero when
it references none). -/
def maxRefV : Value → Nat
  | .vRef i => i + 1
  | .vList l => VList.maxRefL l
  | _ => 0

/-- Largest reference bound of a list spine. -/
def VList.maxRefL : VList → Nat
  | .nil => 0
  | .cons v t => max (maxRefV v) (VList.maxRefL t)
end

/-- Reference bound of an object's attribute values. -/
def maxRefAttrs (o : Obj) : Nat :=
  (o.attrs.map fun pe => maxRefV pe.2).foldr max 0

/-- Reference bound of every attribute value in the heap. -/
def heapRefBound (heap : List Obj) : Nat :=
  (heap.map maxRefAttrs).foldr max 0

/-- The values `solve_node` pushes when it registers `o`. -/
def pushedValues (wlRaw : List (String × WlEntryRaw)) (o : Obj) : List Value :=
  (iter_relevant_props wlRaw o).map fun x => x.2.1

/-- Upper bound on the total size pushed by registering any object a run can
register (the heap's objects and the `None` object). -/
def pushBound (wlRaw : List (String × WlEntryRaw)) (heap : List Obj) : Nat :=
  ((noneObj :: heap).map fun o => sumSize (pushedValues wlRaw o)).foldr max 0

/-- The table `hs2` preserves every binding of `hs` (the `hashes` dict only
ever gains entries during a run). -/
def HExtends (hs hs2 : List (Nat × Nat)) : Prop :=
  ∀ h v, hs.lookup h = some v → hs2.lookup h = some v

/-- Invariant of the `hashes` table: the sequential identifiers are pairwise
distinct and lie in `1..len`. -/
def InvTable (hs : List (Nat × Nat)) : Prop :=
  (hs.map Prod.snd).Nodup ∧ ∀ i ∈ hs.map Prod.snd, 1 ≤ i ∧ i ≤ hs.length

/-- The object a value denotes in node position. -/
def objOfV (heap : List Obj) (v : Value) : Obj := (objOfValue heap v).1

/-- The identity (`id`) a value denotes in node position. -/
def oidOfV (heap : List Obj) (v : Value) : Nat := (objOfValue heap v).2

/-- Invariant carried by the worklist loop: every open and closed value
references only heap indices below `B`, every closed key is the URI its value
mints in the current table (and minting it again leaves the table unchanged),
and closed entries have pairwise distinct identities. -/
def traceINV (hashStr : String → Nat) (hashTuple : List (String × Value) → Nat)
    (pfx : String) (heap : List Obj) (B : Nat) (s : TState) : Prop :=
  (∀ v ∈ s.openL, maxRefV v ≤ B) ∧
  (∀ rv ∈ s.closed, maxRefV rv.2 ≤ B) ∧
  (∀ rv ∈ s.closed,
      make_uri hashStr hashTuple pfx s.hashes (objOfV heap rv.2) (oidOfV heap rv.2) =
        (rv.1, s.hashes)) ∧
  (s.closed.map fun rv => oidOfV heap rv.2).Nodup

/-- Termination measure of the worklist loop: registrations are bounded by
`B + 1`, and every other step shrinks the worklist. -/
def stateMeasure (wlRaw : List (String × WlEntryRaw)) (heap : List Obj) (B : Nat)
    (s : TState) : Nat :=
  (B + 1 - s.closed.length) * (pushBound wlRaw heap + 1) + sumSize s.openL

/-- Decimal digit characters of `n`, most significant first (specification
function used to reason about `Nat.repr`). -/
def decChars (n : Nat) : List Char :=
  if n < 10 then [Nat.digitChar n]
  else decChars (n / 10) ++ [Nat.digitChar (n % 10)]
decreasing_by exact Nat.div_lt_self (by omega) (by omega)

/-- Numeric value of a digit character. -/
def digitVal (c : Char) : Nat := c.toNat - 48

/-- Numeric value of a digit string, most significant first. -/
def charsVal (l : List Char) : Nat := l.foldl (fun a c => 10 * a + digitVal c) 0

/-! ### Concrete scenario instances -/

/-- A concrete stand-in for Python's opaque string hash. -/
def hashStrZ : String → Nat := fun _ => 0

/-- A concrete stand-in for Python's opaque tuple hash. -/
def hashTupleZ : List (String × Value) → Nat := fun _ => 0

/-- Two-node scenario policy: `TypeA` admits only `next`; `TypeB` admits
nothing. -/
def wlAB : List (String × WlEntryRaw) := [("TypeA", .names ["next"]), ("TypeB", .names [])]

/-- Two-node scenario heap: entity `A` whose `next` holds entity `B`. -/
def heapAB : List Obj :=
  [{ typeName := "TypeA", attrs := [("next", .vRef 1)], strNoUid := none },
   { typeName := "TypeB", attrs := [], strNoUid := none }]

/-- Blacklist scenario policy: `TypeA` admits only `ptr`. -/
def wlPtr : List (String × WlEntryRaw) := [("TypeA", .names ["ptr"])]

/-- Blacklist scenario heap: entity `A` whose `ptr` holds a `PointerType`
object (a blacklisted type). -/
def heapPtr : List Obj :=
  [{ typeName := "TypeA", attrs := [("ptr", .vRef 1)], strNoUid := none },
   { typeName := "PointerType", attrs := [], strNoUid := none }]

/-- List scenario policy: `TypeA` admits only `args`. -/
def wlArgs : List (String × WlEntryRaw) := [("TypeA", .names ["args"]), ("TypeB", .names [])]

/-- List scenario heap: entity `A` whose `args` holds a two-element list of
`TypeB` entities. -/
def heapArgs : List Obj :=
  [{ typeName := "TypeA", attrs := [("args", .vList (.cons (.vRef 1) (.cons (.vRef 2) .nil)))],
     strNoUid := none },
   { typeName := "TypeB", attrs := [], strNoUid := none },
   { typeName := "TypeB", attrs := [], strNoUid := none }]

/-- Suppression scenario policy: `TypeA`'s only property `hide` is
bracket-marked. -/
def wlHide : List (String × WlEntryRaw) := [("TypeA", .names ["(hide)"]), ("TypeB", .names [])]

/-- Suppression scenario heap: entity `B` is reachable only through the
suppressed property `hide` of `A`. -/
def heapHide : List Obj :=
  [{ typeName := "TypeA", attrs := [("hide", .vRef 1)], strNoUid := none },
   { typeName := "TypeB", attrs := [], strNoUid := none }]

/-- Shared-counter scenario policy (claim C10). -/
def wlXY : List (String × WlEntryRaw) := [("TypeX", .names ["succ"]), ("TypeY", .names [])]

/-- Shared-counter scenario heap: a `TypeX` entity pointing at a `TypeY`
entity. -/
def heapXY : List Obj :=
  [{ typeName := "TypeX", attrs := [("succ", .vRef 1)], strNoUid := none },
   { typeName := "TypeY", attrs := [], strNoUid := none }]

/-- Values whose `repr_obj` classification is `"node"` (everything that is
neither a literal nor a list). -/
def nodeLike : Value → Bool
  | .vNull => true
  | .vCallable => true
  | .vRef _ => true
  | _ => false

/-! ### Infrastructure lemmas -/

theorem hextends_refl (hs : List (Nat × Nat)) : HExtends hs hs := fun _ _ h => h

theorem hextends_trans {a b c : List (Nat × Nat)} (f : HExtends a b) (g : HExtends b c) :
    HExtends a c := fun h v hv => g h v (f h v hv)

theorem hextends_append (hs l : List (Nat × Nat)) : HExtends hs (hs ++ l) := by
  intro h v hv
  rw [List.lookup_append, hv]
  rfl

theorem isGlobalKind_false_iff (o : Obj) :
    isGlobalKind o = false ↔ o.typeName ≠ "FunctionDecl" ∧ o.typeName ≠ "Location" := by
  simp [isGlobalKind]

theorem make_uri_found (hashStr : String → Nat) (hashTuple : List (String × Value) → Nat)
    (pfx : String) (hs : List (Nat × Nat)) (o : Obj) (oid i : Nat)
    (hng : isGlobalKind o = false)
    (hf : hs.lookup (hash_of hashStr hashTuple o oid) = some i) :
    make_uri hashStr hashTuple pfx hs o oid =
      (pfx ++ ":" ++ o.typeName ++ "_" ++ toString i, hs) := by
  obtain ⟨h1, h2⟩ := (isGlobalKind_false_iff o).mp hng
  unfold make_uri
  rw [if_neg h1, if_neg h2]
  simp only [hf]

theorem make_uri_fresh (hashStr : String → Nat) (hashTuple : List (String × Value) → Nat)
    (pfx : String) (hs : List (Nat × Nat)) (o : Obj) (oid : Nat)
    (hng : isGlobalKind o = false)
    (hf : hs.lookup (hash_of hashStr hashTuple o oid) = none) :
    make_uri hashStr hashTuple pfx hs o oid =
      (pfx ++ ":" ++ o.typeName ++ "_" ++ toString (hs.length + 1),
       hs ++ [(hash_of hashStr hashTuple o oid, hs.length + 1)]) := by
  obtain ⟨h1, h2⟩ := (isGlobalKind_false_iff o).mp hng
  unfold make_uri
  rw [if_neg h1, if_neg h2]
  simp only [hf]

theorem make_uri_global (hashStr : String → Nat) (hashTuple : List (String × Value) → Nat)
    (pfx : String) (hs : List (Nat × Nat)) (o : Obj) (oid : Nat)
    (hg : isGlobalKind o = true) :
    make_uri hashStr hashTuple pfx hs o oid =
      ((make_uri hashStr hashTuple pfx [] o oid).1, hs) := by
  simp only [isGlobalKind, Bool.or_eq_true, beq_iff_eq] at hg
  unfold make_uri
  rcases hg with h | h
  · rw [if_pos h, if_pos h]
  · by_cases h1 : o.typeName = "FunctionDecl"
    · rw [if_pos h1, if_pos h1]
    · rw [if_neg h1, if_pos h, if_neg h1, if_pos h]

theorem make_uri_extends (hashStr : String → Nat) (hashTuple : List (String × Value) → Nat)
    (pfx : String) (hs : List (Nat × Nat)) (o : Obj) (oid : Nat) :
    HExtends hs (make_uri hashStr hashTuple pfx hs o oid).2 := by
  by_cases hg : isGlobalKind o = true
  · rw [make_uri_global hashStr hashTuple pfx hs o oid hg]
    exact hextends_refl hs
  · rw [Bool.not_eq_true] at hg
    cases hf : hs.lookup (hash_of hashStr hashTuple o oid) with
    | none =>
      rw [make_uri_fresh hashStr hashTuple pfx hs o oid hg hf]
      exact hextends_append _ _
    | some i =>
      rw [make_uri_found hashStr hashTuple pfx hs o oid i hg hf]
      exact hextends_refl hs

theorem make_uri_stable (hashStr : String → Nat) (hashTuple : List (String × Value) → Nat)
    (pfx : String) (hs hs2 : List (Nat × Nat)) (o : Obj) (oid : Nat)
    (hext : HExtends (make_uri hashStr hashTuple pfx hs o oid).2 hs2) :
    make_uri hashStr hashTuple pfx hs2 o oid = ((make_uri hashStr hashTuple pfx hs o oid).1, hs2) := by
  by_cases hg : isGlobalKind o = true
  · rw [make_uri_global hashStr hashTuple pfx hs o oid hg,
        make_uri_global hashStr hashTuple pfx hs2 o oid hg]
  · rw [Bool.not_eq_true] at hg
    cases hf : hs.lookup (hash_of hashStr hashTuple o oid) with
    | none =>
      have heq := make_uri_fresh hashStr hashTuple pfx hs o oid hg hf
      rw [heq] at hext
      have hl2 : hs2.lookup (hash_of hashStr hashTuple o oid) = some (hs.length + 1) := by
        apply hext
        rw [List.lookup_append, hf]
        simp
      rw [make_uri_found hashStr hashTuple pfx hs2 o oid (hs.length + 1) hg hl2, heq]
    | some i =>
      have heq := make_uri_found hashStr hashTuple pfx hs o oid i hg hf
      rw [heq] at hext
      have hl2 : hs2.lookup (hash_of hashStr hashTuple o oid) = some i := hext _ _ hf
      rw [make_uri_found hashStr hashTuple pfx hs2 o oid i hg hl2, heq]

theorem invTable_nil : InvTable [] := by
  constructor
  · simp
  · simp

theorem invTable_make_uri (hashStr : String → Nat) (hashTuple : List (String × Value) → Nat)
    (pfx : String) (hs : List (Nat × Nat)) (o : Obj) (oid : Nat) (hinv : InvTable hs) :
    InvTable (make_uri hashStr hashTuple pfx hs o oid).2 := by
  by_cases hg : isGlobalKind o = true
  · rw [make_uri_global hashStr hashTuple pfx hs o oid hg]
    exact hinv
  · rw [Bool.not_eq_true] at hg
    cases hf : hs.lookup (hash_of hashStr hashTuple o oid) with
    | none =>
      rw [make_uri_fresh hashStr hashTuple pfx hs o oid hg hf]
      obtain ⟨hnd, hbd⟩ := hinv
      constructor
      · simp only [List.map_append, List.map_cons, List.map_nil]
        rw [List.nodup_append]
        refine ⟨hnd, List.nodup_singleton _, ?_⟩
        intro a ha hb
        simp only [List.mem_singleton] at hb
        subst hb
        have := hbd _ ha
        omega
      · intro i hi
        simp only [List.map_append, List.map_cons, List.map_nil, List.mem_append,
          List.mem_singleton] at hi
        simp only [List.length_append, List.length_cons, List.length_nil]
        rcases hi with hi | hi
        · have := hbd i hi
          omega
        · omega
    | some i =>
      rw [make_uri_found hashStr hashTuple pfx hs o oid i hg hf]
      exact hinv

theorem repr_obj_node (hashStr : String → Nat) (hashTuple : List (String × Value) → Nat)
    (pfx : String) (heap : List Obj) (hs : List (Nat × Nat)) (v : Value)
    (hnl : nodeLike v = true) :
    repr_obj hashStr hashTuple pfx heap hs v =
      ((make_uri hashStr hashTuple pfx hs (objOfV heap v) (oidOfV heap v)).1, "node",
       (make_uri hashStr hashTuple pfx hs (objOfV heap v) (oidOfV heap v)).2) := by
  cases v <;> simp_all [repr_obj, repr_literal, nodeLike, objOfV, oidOfV]

theorem repr_obj_kind (hashStr : String → Nat) (hashTuple : List (String × Value) → Nat)
    (pfx : String) (heap : List Obj) (hs : List (Nat × Nat)) (v : Value) :
    (repr_obj hashStr hashTuple pfx heap hs v).2.1 = "literal" ∨
    (repr_obj hashStr hashTuple pfx heap hs v).2.1 = "list" ∨
    (repr_obj hashStr hashTuple pfx heap hs v).2.1 = "node" := by
  cases v with
  | vList l => cases l <;> simp [repr_obj]
  | vBool b => simp [repr_obj, repr_literal]
  | vInt n => simp [repr_obj, repr_literal]
  | vStr s => simp [repr_obj, repr_literal]
  | vNull => simp [repr_obj, repr_literal]
  | vCallable => simp [repr_obj, repr_literal]
  | vRef i => simp [repr_obj, repr_literal]

mutual
theorem repr_obj_extends (hashStr : String → Nat) (hashTuple : List (String × Value) → Nat)
    (pfx : String) (heap : List Obj) :
    ∀ (v : Value) (hs : List (Nat × Nat)),
      HExtends hs (repr_obj hashStr hashTuple pfx heap hs v).2.2
  | .vBool _, hs => hextends_refl hs
  | .vInt _, hs => hextends_refl hs
  | .vStr _, hs => hextends_refl hs
  | .vNull, hs => by
    rw [repr_obj_node hashStr hashTuple pfx heap hs .vNull rfl]
    exact make_uri_extends hashStr hashTuple pfx hs _ _
  | .vCallable, hs => by
    rw [repr_obj_node hashStr hashTuple pfx heap hs .vCallable rfl]
    exact make_uri_extends hashStr hashTuple pfx hs _ _
  | .vRef i, hs => by
    rw [repr_obj_node hashStr hashTuple pfx heap hs (.vRef i) rfl]
    exact make_uri_extends hashStr hashTuple pfx hs _ _
  | .vList .nil, hs => hextends_refl hs
  | .vList (.cons e es), hs => reprVList_extends hashStr hashTuple pfx heap (.cons e es) hs

theorem reprVList_extends (hashStr : String → Nat) (hashTuple : List (String × Value) → Nat)
    (pfx : String) (heap : List Obj) :
    ∀ (l : VList) (hs : List (Nat × Nat)),
      HExtends hs (reprVList hashStr hashTuple pfx heap hs l).2
  | .nil, hs => hextends_refl hs
  | .cons v vs, hs =>
    hextends_trans (repr_obj_extends hashStr hashTuple pfx heap v hs)
      (reprVList_extends hashStr hashTuple pfx heap vs
        (repr_obj hashStr hashTuple pfx heap hs v).2.2)
end

theorem iter_props_spec (wlRaw : List (String × WlEntryRaw)) (o : Obj)
    (p : String) (e : Value) (ex : Bool)
    (hmem : (p, e, ex) ∈ iter_relevant_props wlRaw o) :
    ∃ q, (q, e) ∈ o.attrs ∧ isNoneV e = false ∧ isCallableV e = false ∧
      (p, e, ex) = yieldEntry wlRaw o.typeName q e := by
  simp only [iter_relevant_props] at hmem
  rcases hw : ((whitelist wlRaw).lookup o.typeName) with _ | entry <;> rw [hw] at hmem
  · simp at hmem
  · have extract : ∀ pe ∈ (((o.attrs.filter fun pe =>
        !(pyStartswith pe.1 "__") && !(BLACKLIST.contains pe.1)).filter fun pe =>
        !(isCallableV pe.2)).filter fun pe => !(isNoneV pe.2)),
        yieldEntry wlRaw o.typeName pe.1 pe.2 = (p, e, ex) →
        ∃ q, (q, e) ∈ o.attrs ∧ isNoneV e = false ∧ isCallableV e = false ∧
          (p, e, ex) = yieldEntry wlRaw o.typeName q e := by
      intro pe hpe heq
      simp only [List.mem_filter] at hpe
      obtain ⟨⟨⟨ha, _⟩, hcall⟩, hnone⟩ := hpe
      have he : pe.2 = e := by
        have := congrArg (fun x => x.2.1) heq
        simpa [yieldEntry] using this
      refine ⟨pe.1, ?_, ?_, ?_, ?_⟩
      · rw [← he]; exact ha
      · rw [← he]; simpa using hnone
      · rw [← he]; simpa using hcall
      · rw [← heq, he]
    cases entry with
    | all =>
      simp only [List.mem_map] at hmem
      obtain ⟨pe, hpe, heq⟩ := hmem
      exact extract pe hpe heq
    | names l =>
      simp only [List.mem_map, List.mem_filter] at hmem
      obtain ⟨pe, ⟨hpe, _⟩, heq⟩ := hmem
      have hpe2 : pe ∈ ((o.attrs.filter fun pe =>
          !(pyStartswith pe.1 "__") && !(BLACKLIST.contains pe.1)).filter fun pe =>
          !(isCallableV pe.2)).filter fun pe => !(isNoneV pe.2) := by
        simp only [List.mem_filter] at hpe ⊢
        exact hpe
      exact extract pe hpe2 heq

theorem iter_props_not_none (wlRaw : List (String × WlEntryRaw)) (o : Obj)
    (p : String) (e : Value) (ex : Bool)
    (hmem : (p, e, ex) ∈ iter_relevant_props wlRaw o) : isNoneV e = false := by
  obtain ⟨_, _, h, _, _⟩ := iter_props_spec wlRaw o p e ex hmem
  exact h

theorem iter_props_value_from_attrs (wlRaw : List (String × WlEntryRaw)) (o : Obj)
    (p : String) (e : Value) (ex : Bool)
    (hmem : (p, e, ex) ∈ iter_relevant_props wlRaw o) : ∃ q, (q, e) ∈ o.attrs := by
  obtain ⟨q, h, _, _, _⟩ := iter_props_spec wlRaw o p e ex hmem
  exact ⟨q, h⟩

theorem iter_props_express_not_suppressed (wlRaw : List (String × WlEntryRaw)) (o : Obj)
    (p : String) (e : Value)
    (hmem : (p, e, true) ∈ iter_relevant_props wlRaw o) :
    (o.typeName, p) ∉ should_be_suppressed wlRaw := by
  obtain ⟨q, _, _, _, heq⟩ := iter_props_spec wlRaw o p e true hmem
  have h3 := congrArg (fun x => x.2.2) heq
  have h1 := congrArg (fun x => x.1) heq
  simp only [yieldEntry] at h3 h1
  have hc : (should_be_suppressed wlRaw).contains (o.typeName, q) = false := by
    cases hcc : (should_be_suppressed wlRaw).contains (o.typeName, q)
    · rfl
    · rw [hcc] at h3
      simp at h3
  rw [hc] at h1
  simp at h1
  subst h1
  intro hmem2
  have helem : (should_be_suppressed wlRaw).contains (o.typeName, p) = true :=
    List.elem_eq_true_of_mem hmem2
  rw [helem] at hc
  cases hc

theorem solve_node_blacklisted (hashStr : String → Nat) (hashTuple : List (String × Value) → Nat)
    (wlRaw : List (String × WlEntryRaw)) (pfx : String) (heap : List Obj)
    (v : Value) (s : TState) (hb : isBlacklistedV heap v = true) :
    solve_node hashStr hashTuple wlRaw pfx heap v s = some s := by
  simp [solve_node, hb]

theorem solve_node_literal (hashStr : String → Nat) (hashTuple : List (String × Value) → Nat)
    (wlRaw : List (String × WlEntryRaw)) (pfx : String) (heap : List Obj)
    (v : Value) (s : TState) (r : String) (hs1 : List (Nat × Nat))
    (hb : isBlacklistedV heap v = false)
    (hro : repr_obj hashStr hashTuple pfx heap s.hashes v = (r, "literal", hs1)) :
    solve_node hashStr hashTuple wlRaw pfx heap v s = some { s with hashes := hs1 } := by
  simp [solve_node, hb, hro]

theorem solve_node_list (hashStr : String → Nat) (hashTuple : List (String × Value) → Nat)
    (wlRaw : List (String × WlEntryRaw)) (pfx : String) (heap : List Obj)
    (v : Value) (s : TState) (r : String) (hs1 : List (Nat × Nat))
    (hb : isBlacklistedV heap v = false)
    (hro : repr_obj hashStr hashTuple pfx heap s.hashes v = (r, "list", hs1)) :
    solve_node hashStr hashTuple wlRaw pfx heap v s =
      some { s with hashes := hs1, openL := (elemsOf v).reverse ++ s.openL } := by
  simp [solve_node, hb, hro]

theorem solve_node_node_closed (hashStr : String → Nat) (hashTuple : List (String × Value) → Nat)
    (wlRaw : List (String × WlEntryRaw)) (pfx : String) (heap : List Obj)
    (v : Value) (s : TState) (r : String) (hs1 : List (Nat × Nat))
    (hb : isBlacklistedV heap v = false)
    (hro : repr_obj hashStr hashTuple pfx heap s.hashes v = (r, "node", hs1))
    (hc : (s.closed.map Prod.fst).contains r = true) :
    solve_node hashStr hashTuple wlRaw pfx heap v s = some { s with hashes := hs1 } := by
  simp at hc
  simp [solve_node, hb, hro, hc]

theorem solve_node_node_fresh (hashStr : String → Nat) (hashTuple : List (String × Value) → Nat)
    (wlRaw : List (String × WlEntryRaw)) (pfx : String) (heap : List Obj)
    (v : Value) (s : TState) (r : String) (hs1 : List (Nat × Nat))
    (hb : isBlacklistedV heap v = false)
    (hro : repr_obj hashStr hashTuple pfx heap s.hashes v = (r, "node", hs1))
    (hc : (s.closed.map Prod.fst).contains r = false) :
    solve_node hashStr hashTuple wlRaw pfx heap v s =
      some { s with hashes := hs1,
                    closed := s.closed ++ [(r, v)],
                    openL := (pushedValues wlRaw (objOfV heap v)).reverse ++ s.openL } := by
  simp at hc
  simp [solve_node, hb, hro, hc, pushedValues, objOfV]

theorem yield_triples_foldl_shape (rn : String)
    (L : List (String × Value × Bool)) (step : List String × List (Nat × Nat) →
      String × Value × Bool → List String × List (Nat × Nat))
    (hstep : ∀ acc pve, (step acc pve).1 = acc.1 ∨
      (pve.2.2 = true ∧ is_rdf_none pve.2.1 = false ∧
        ∃ r, (step acc pve).1 = acc.1 ++ [rn ++ " gcc:" ++ pve.1 ++ " " ++ r ++ "."])) :
    ∀ acc : List String × List (Nat × Nat),
      ∃ rest, (L.foldl step acc).1 = acc.1 ++ rest ∧
        ∀ line ∈ rest, ∃ p e r, (p, e, true) ∈ L ∧ is_rdf_none e = false ∧
          line = rn ++ " gcc:" ++ p ++ " " ++ r ++ "." := by
  induction L with
  | nil => exact fun acc => ⟨[], by simp, by simp⟩
  | cons pve L ih =>
    intro acc
    obtain ⟨rest, hr, hmem⟩ := ih (step acc pve)
    rcases hstep acc pve with h | ⟨hex, hnone, r, h⟩
    · refine ⟨rest, by simp [List.foldl_cons, hr, h], ?_⟩
      intro line hline
      obtain ⟨p, e, r, hin, hn, hl⟩ := hmem line hline
      exact ⟨p, e, r, List.mem_cons_of_mem _ hin, hn, hl⟩
    · refine ⟨(rn ++ " gcc:" ++ pve.1 ++ " " ++ r ++ ".") :: rest, ?_, ?_⟩
      · simp [List.foldl_cons, hr, h]
      · intro line hline
        rcases List.mem_cons.mp hline with hl | hl
        · exact ⟨pve.1, pve.2.1, r, by
            constructor
            · rw [show (pve.1, pve.2.1, true) = pve by rw [← hex]]
              exact List.mem_cons_self _ _
            · exact ⟨hnone, hl⟩⟩
        · obtain ⟨p, e, r2, hin, hn, hlm⟩ := hmem line hl
          exact ⟨p, e, r2, List.mem_cons_of_mem _ hin, hn, hlm⟩

theorem yield_triples_shape (hashStr : String → Nat) (hashTuple : List (String × Value) → Nat)
    (wlRaw : List (String × WlEntryRaw)) (pfx : String) (heap : List Obj)
    (node : Value) (hs : List (Nat × Nat)) :
    ∃ rest, (yield_triples hashStr hashTuple wlRaw pfx heap node hs).1 =
      ((repr_obj hashStr hashTuple pfx heap hs node).1 ++ " a gcc:" ++
        (objOfV heap node).typeName ++ ".") :: rest ∧
      ∀ line ∈ rest, ∃ p e r,
        (p, e, true) ∈ iter_relevant_props wlRaw (objOfV heap node) ∧
        is_rdf_none e = false ∧
        line = (repr_obj hashStr hashTuple pfx heap hs node).1 ++ " gcc:" ++ p ++ " " ++ r ++ "." := by
  rcases hro : repr_obj hashStr hashTuple pfx heap hs node with ⟨rn, k, hs1⟩
  have hshape := yield_triples_foldl_shape rn (iter_relevant_props wlRaw (objOfV heap node))
    (fun acc pve =>
      if pve.2.2 && !(is_rdf_none pve.2.1) then
        let (r, _, hs2) := repr_obj hashStr hashTuple pfx heap acc.2 pve.2.1
        (acc.1 ++ [rn ++ " gcc:" ++ pve.1 ++ " " ++ r ++ "."], hs2)
      else acc)
    (by
      intro acc pve
      by_cases hif : (pve.2.2 && !(is_rdf_none pve.2.1)) = true
      · right
        simp only [Bool.and_eq_true, Bool.not_eq_true'] at hif
        refine ⟨hif.1, hif.2, (repr_obj hashStr hashTuple pfx heap acc.2 pve.2.1).1, ?_⟩
        simp [hif.1, hif.2]
      · left
        simp only [Bool.not_eq_true] at hif
        simp [hif])
    ([rn ++ " a gcc:" ++ (objOfV heap node).typeName ++ "."], hs1)
  obtain ⟨rest, h1, h2⟩ := hshape
  refine ⟨rest, ?_, ?_⟩
  · simp only [yield_triples, hro, objOfV] at h1 ⊢
    rw [h1]
    simp
  · intro line hline
    obtain ⟨p, e, r, hin, hn, hl⟩ := h2 line hline
    exact ⟨p, e, r, hin, hn, by simp [hro, hl]⟩

theorem digitChar_ne_underscore (d : Nat) (hd : d < 10) : Nat.digitChar d ≠ '_' := by
  interval_cases d <;> decide

theorem digitVal_digitChar (d : Nat) (hd : d < 10) : digitVal (Nat.digitChar d) = d := by
  interval_cases d <;> decide

theorem decChars_ne_nil (n : Nat) : decChars n ≠ [] := by
  rw [decChars]
  split <;> simp

theorem decChars_no_underscore (n : Nat) : ∀ c ∈ decChars n, c ≠ '_' := by
  induction n using Nat.strong_induction_on with
  | _ n ih =>
    rw [decChars]
    split
    · intro c hc
      rw [List.mem_singleton] at hc
      subst hc
      exact digitChar_ne_underscore n (by omega)
    · intro c hc
      rcases List.mem_append.mp hc with h | h
      · exact ih (n / 10) (Nat.div_lt_self (by omega) (by omega)) c h
      · rw [List.mem_singleton] at h
        subst h
        exact digitChar_ne_underscore _ (Nat.mod_lt _ (by omega))

theorem charsVal_singleton (c : Char) : charsVal [c] = digitVal c := by
  simp [charsVal]

theorem charsVal_append_singleton (l : List Char) (c : Char) :
    charsVal (l ++ [c]) = 10 * charsVal l + digitVal c := by
  simp [charsVal, List.foldl_append]

theorem charsVal_decChars (n : Nat) : charsVal (decChars n) = n := by
  induction n using Nat.strong_induction_on with
  | _ n ih =>
    rw [decChars]
    split
    · rw [charsVal_singleton, digitVal_digitChar n (by omega)]
    · rw [charsVal_append_singleton, ih (n / 10) (Nat.div_lt_self (by omega) (by omega)),
        digitVal_digitChar _ (Nat.mod_lt _ (by omega))]
      omega

theorem toDigitsCore_eq_decChars (fuel : Nat) :
    ∀ (n : Nat) (acc : List Char), 0 < fuel → n < 10 ^ fuel →
      Nat.toDigitsCore 10 fuel n acc = decChars n ++ acc := by
  induction fuel with
  | zero => intro n acc h; omega
  | succ f ih =>
    intro n acc _ hlt
    have hstep : Nat.toDigitsCore 10 (f + 1) n acc =
        if n / 10 = 0 then Nat.digitChar (n % 10) :: acc
        else Nat.toDigitsCore 10 f (n / 10) (Nat.digitChar (n % 10) :: acc) := rfl
    rw [hstep]
    by_cases h0 : n / 10 = 0
    · rw [if_pos h0, decChars]
      have hn : n < 10 := by omega
      rw [if_pos hn, Nat.mod_eq_of_lt hn]
      simp
    · rw [if_neg h0]
      have hf : 0 < f := by
        rcases Nat.eq_zero_or_pos f with hf0 | hf0
        · subst hf0
          simp at hlt
          omega
        · exact hf0
      have hdiv : n / 10 < 10 ^ f := by
        rw [Nat.div_lt_iff_lt_mul (by omega)]
        calc n < 10 ^ (f + 1) := hlt
        _ = 10 ^ f * 10 := by rw [pow_succ]
      rw [ih (n / 10) _ hf hdiv]
      conv_rhs => rw [decChars]
      rw [if_neg (by omega : ¬n < 10)]
      simp [List.append_assoc]

theorem toDigits_eq_decChars (n : Nat) : Nat.toDigits 10 n = decChars n := by
  have hlt : n < 10 ^ (n + 1) := by
    calc n < 10 ^ n := Nat.lt_pow_self (by omega) n
    _ ≤ 10 ^ (n + 1) := Nat.pow_le_pow_right (by omega) (by omega)
  have := toDigitsCore_eq_decChars (n + 1) n [] (by omega) hlt
  simpa [Nat.toDigits] using this

theorem nat_repr_inj {m n : Nat} (h : Nat.repr m = Nat.repr n) : m = n := by
  have hm : Nat.toDigits 10 m = Nat.toDigits 10 n := by
    have := congrArg String.data h
    simpa [Nat.repr, List.asString] using this
  rw [toDigits_eq_decChars, toDigits_eq_decChars] at hm
  have := congrArg charsVal hm
  rwa [charsVal_decChars, charsVal_decChars] at this

theorem repr_no_underscore (n : Nat) : ∀ c ∈ (Nat.repr n).data, c ≠ '_' := by
  intro c hc
  have : (Nat.repr n).data = decChars n := by
    simp [Nat.repr, List.asString, toDigits_eq_decChars]
  rw [this] at hc
  exact decChars_no_underscore n c hc

theorem takeWhile_all_append (p : Char → Bool) (xs : List Char) (y : Char) (ys : List Char)
    (hxs : ∀ c ∈ xs, p c = true) (hy : p y = false) :
    (xs ++ y :: ys).takeWhile p = xs := by
  induction xs with
  | nil => simp [List.takeWhile_cons, hy]
  | cons a t ih =>
    have ha : p a = true := hxs a (List.mem_cons_self a t)
    have ht := ih fun c hc => hxs c (List.mem_cons_of_mem a hc)
    simp [List.takeWhile_cons, ha, ht]

theorem append_underscore_inj (a b d1 d2 : List Char)
    (h : a ++ '_' :: d1 = b ++ '_' :: d2)
    (hd1 : ∀ c ∈ d1, c ≠ '_') (hd2 : ∀ c ∈ d2, c ≠ '_') : d1 = d2 := by
  have hrev : d1.reverse ++ '_' :: a.reverse = d2.reverse ++ '_' :: b.reverse := by
    have := congrArg List.reverse h
    simpa [List.reverse_append] using this
  have hp : ∀ (d : List Char), (∀ c ∈ d, c ≠ '_') →
      ∀ c ∈ d.reverse, (!(c == '_')) = true := by
    intro d hd c hc
    simp only [Bool.not_eq_true', beq_eq_false_iff_ne]
    exact hd c (List.mem_reverse.mp hc)
  have h1 := takeWhile_all_append (fun c => !(c == '_')) d1.reverse '_' a.reverse
    (hp d1 hd1) (by decide)
  have h2 := takeWhile_all_append (fun c => !(c == '_')) d2.reverse '_' b.reverse
    (hp d2 hd2) (by decide)
  have : d1.reverse = d2.reverse := by rw [← h1, ← h2, hrev]
  simpa using congrArg List.reverse this

theorem uri_ne_of_id_ne (pfx t1 t2 : String) (i1 i2 : Nat) (hne : i1 ≠ i2) :
    pfx ++ ":" ++ t1 ++ "_" ++ toString i1 ≠ pfx ++ ":" ++ t2 ++ "_" ++ toString i2 := by
  intro h
  have hd := congrArg String.data h
  simp only [String.data_append] at hd
  have h2 : (pfx.data ++ ":".data ++ t1.data) ++ '_' :: (toString i1).data
      = (pfx.data ++ ":".data ++ t2.data) ++ '_' :: (toString i2).data := by
    simpa [List.append_assoc] using hd
  have hrepr : (toString i1).data = (toString i2).data :=
    append_underscore_inj _ _ _ _ h2 (repr_no_underscore i1) (repr_no_underscore i2)
  exact hne (nat_repr_inj (by
    apply String.ext
    exact hrepr))

theorem vsize_pos (v : Value) : 1 ≤ vsize v := by
  cases v <;> simp [vsize]

theorem sumSize_cons (v : Value) (l : List Value) :
    sumSize (v :: l) = vsize v + sumSize l := rfl

theorem sumSize_append (l1 l2 : List Value) :
    sumSize (l1 ++ l2) = sumSize l1 + sumSize l2 := by
  induction l1 with
  | nil => simp [sumSize]
  | cons a t ih => simp only [List.cons_append, sumSize_cons, ih]; omega

theorem sumSize_reverse (l : List Value) : sumSize l.reverse = sumSize l := by
  induction l with
  | nil => rfl
  | cons a t ih =>
    rw [List.reverse_cons, sumSize_append, sumSize_cons, ih]
    simp [sumSize, sumSize_cons]
    omega

theorem sumSize_toList : (l : VList) → sumSize l.toList = VList.lsize l
  | .nil => rfl
  | .cons v t => by rw [VList.toList, sumSize_cons, VList.lsize, sumSize_toList t]

theorem le_foldr_max (l : List Nat) (x : Nat) (hx : x ∈ l) : x ≤ l.foldr max 0 := by
  induction l with
  | nil => cases hx
  | cons a t ih =>
    rcases List.mem_cons.mp hx with h | h
    · subst h
      simp only [List.foldr_cons]
      omega
    · have := ih h
      simp only [List.foldr_cons]
      omega

theorem maxRefV_elem (u : Value) : (l : VList) → u ∈ l.toList → maxRefV u ≤ VList.maxRefL l
  | .nil, hu => by cases hu
  | .cons v t, hu => by
    rw [VList.toList] at hu
    rcases List.mem_cons.mp hu with h | h
    · subst h
      rw [VList.maxRefL]
      omega
    · have := maxRefV_elem u t h
      rw [VList.maxRefL]
      omega

theorem maxRefV_elemsOf (u v : Value) (hu : u ∈ elemsOf v) : maxRefV u ≤ maxRefV v := by
  cases v with
  | vList l => exact maxRefV_elem u l hu
  | vBool b => cases hu
  | vInt n => cases hu
  | vStr s => cases hu
  | vNull => cases hu
  | vCallable => cases hu
  | vRef i => cases hu

theorem maxRefV_attr (o : Obj) (q : String) (e : Value) (h : (q, e) ∈ o.attrs) :
    maxRefV e ≤ maxRefAttrs o := by
  apply le_foldr_max
  exact List.mem_map.mpr ⟨(q, e), h, rfl⟩

theorem maxRefAttrs_heap (heap : List Obj) (o : Obj) (h : o ∈ heap) :
    maxRefAttrs o ≤ heapRefBound heap := by
  apply le_foldr_max
  exact List.mem_map.mpr ⟨o, h, rfl⟩

theorem objOfV_mem (heap : List Obj) (v : Value) : objOfV heap v ∈ noneObj :: heap := by
  cases v with
  | vRef i =>
    simp only [objOfV, objOfValue]
    by_cases hi : i < heap.length
    · exact List.mem_cons_of_mem _ (by rw [List.getD_eq_getElem _ _ hi]; exact List.getElem_mem _)
    · rw [List.getD_eq_default _ _ (by omega)]
      exact List.mem_cons_self _ _
  | vBool b => exact List.mem_cons_self _ _
  | vInt n => exact List.mem_cons_self _ _
  | vStr s => exact List.mem_cons_self _ _
  | vNull => exact List.mem_cons_self _ _
  | vCallable => exact List.mem_cons_self _ _
  | vList l => exact List.mem_cons_self _ _

theorem pushed_le_pushBound (wlRaw : List (String × WlEntryRaw)) (heap : List Obj) (o : Obj)
    (h : o ∈ noneObj :: heap) :
    sumSize (pushedValues wlRaw o) ≤ pushBound wlRaw heap := by
  apply le_foldr_max
  exact List.mem_map.mpr ⟨o, h, rfl⟩

theorem maxRefV_pushed (wlRaw : List (String × WlEntryRaw)) (heap : List Obj) (v e : Value)
    (he : e ∈ pushedValues wlRaw (objOfV heap v)) :
    maxRefV e ≤ heapRefBound heap := by
  simp only [pushedValues, List.mem_map] at he
  obtain ⟨⟨p, e', ex⟩, hmem, heq⟩ := he
  subst heq
  show maxRefV e' ≤ heapRefBound heap
  obtain ⟨q, hq⟩ := iter_props_value_from_attrs wlRaw (objOfV heap v) p e' ex hmem
  have h1 := maxRefV_attr _ q e' hq
  rcases List.mem_cons.mp (objOfV_mem heap v) with h | h
  · rw [h] at h1
    have h0 : maxRefAttrs noneObj = 0 := rfl
    rw [h0] at h1
    omega
  · exact le_trans h1 (maxRefAttrs_heap heap _ h)

theorem oid_eq_obj_eq (heap : List Obj) (v1 v2 : Value)
    (h : oidOfV heap v1 = oidOfV heap v2) : objOfV heap v1 = objOfV heap v2 := by
  cases v1 <;> cases v2 <;>
    simp_all [oidOfV, objOfV, objOfValue, objIdAt, objIdBase, noneId] <;>
    omega

theorem nodeLike_vsize (v : Value) (h : nodeLike v = true) : vsize v = 1 := by
  cases v <;> simp_all [nodeLike, vsize]

theorem closed_len_le (heap : List Obj) (B : Nat) (closed : List (String × Value))
    (hnd : (closed.map fun rv => oidOfV heap rv.2).Nodup)
    (hb : ∀ rv ∈ closed, maxRefV rv.2 ≤ B) :
    closed.length ≤ B + 1 := by
  have hsub : (closed.map fun rv => oidOfV heap rv.2) ⊆ noneId :: (List.range B).map objIdAt := by
    intro x hx
    simp only [List.mem_map] at hx
    obtain ⟨rv, hrv, heq⟩ := hx
    subst heq
    cases hv : rv.2 with
    | vRef i =>
      have : maxRefV rv.2 ≤ B := hb rv hrv
      rw [hv] at this
      simp only [maxRefV] at this
      apply List.mem_cons_of_mem
      exact List.mem_map.mpr ⟨i, List.mem_range.mpr (by omega), by simp [oidOfV, objOfValue, hv]⟩
    | vBool b => simp [oidOfV, objOfValue, hv]
    | vInt n => simp [oidOfV, objOfValue, hv]
    | vStr s => simp [oidOfV, objOfValue, hv]
    | vNull => simp [oidOfV, objOfValue, hv]
    | vCallable => simp [oidOfV, objOfValue, hv]
    | vList l => simp [oidOfV, objOfValue, hv]
  have hlen := (List.subperm_of_subset hnd hsub).length_le
  simpa using hlen

theorem closed_entries_stable (hashStr : String → Nat) (hashTuple : List (String × Value) → Nat)
    (pfx : String) (heap : List Obj) (closed : List (String × Value))
    (hs hs1 : List (Nat × Nat)) (hext : HExtends hs hs1)
    (hcl : ∀ rv ∈ closed,
      make_uri hashStr hashTuple pfx hs (objOfV heap rv.2) (oidOfV heap rv.2) = (rv.1, hs)) :
    ∀ rv ∈ closed,
      make_uri hashStr hashTuple pfx hs1 (objOfV heap rv.2) (oidOfV heap rv.2) = (rv.1, hs1) := by
  intro rv hrv
  have h := hcl rv hrv
  have hst := make_uri_stable hashStr hashTuple pfx hs hs1 (objOfV heap rv.2) (oidOfV heap rv.2)
    (by rw [h]; exact hext)
  rw [h] at hst
  exact hst

theorem step_preserves (hashStr : String → Nat) (hashTuple : List (String × Value) → Nat)
    (wlRaw : List (String × WlEntryRaw)) (pfx : String) (heap : List Obj) (B : Nat)
    (hBheap : heapRefBound heap ≤ B)
    (v : Value) (rest : List Value) (closed : List (String × Value)) (hs : List (Nat × Nat))
    (hINV : traceINV hashStr hashTuple pfx heap B ⟨v :: rest, closed, hs⟩) :
    ∃ s2, solve_node hashStr hashTuple wlRaw pfx heap v ⟨rest, closed, hs⟩ = some s2 ∧
      traceINV hashStr hashTuple pfx heap B s2 ∧
      stateMeasure wlRaw heap B s2 < stateMeasure wlRaw heap B ⟨v :: rest, closed, hs⟩ := by
  obtain ⟨hOpen, hClosed, hStable, hNodup⟩ := hINV
  have hOpenRest : ∀ u ∈ rest, maxRefV u ≤ B := fun u hu => hOpen u (List.mem_cons_of_mem _ hu)
  have hvB : maxRefV v ≤ B := hOpen v (List.mem_cons_self _ _)
  have hvpos := vsize_pos v
  by_cases hb : isBlacklistedV heap v = true
  · refine ⟨_, solve_node_blacklisted hashStr hashTuple wlRaw pfx heap v _ hb,
      ⟨hOpenRest, hClosed, hStable, hNodup⟩, ?_⟩
    simp only [stateMeasure, sumSize_cons]
    omega
  · rw [Bool.not_eq_true] at hb
    rcases hro : repr_obj hashStr hashTuple pfx heap hs v with ⟨r, k, hs1⟩
    have hext : HExtends hs hs1 := by
      have h := repr_obj_extends hashStr hashTuple pfx heap v hs
      rw [hro] at h
      exact h
    have hstable1 := closed_entries_stable hashStr hashTuple pfx heap closed hs hs1 hext hStable
    have hkind := repr_obj_kind hashStr hashTuple pfx heap hs v
    rw [hro] at hkind
    dsimp only at hkind
    rcases hkind with hk | hk | hk
    · subst hk
      refine ⟨_, solve_node_literal hashStr hashTuple wlRaw pfx heap v ⟨rest, closed, hs⟩
        r hs1 hb hro, ⟨hOpenRest, hClosed, hstable1, hNodup⟩, ?_⟩
      simp only [stateMeasure, sumSize_cons]
      omega
    · subst hk
      have hlist : ∃ l, v = Value.vList l := by
        cases v with
        | vList l => exact ⟨l, rfl⟩
        | vBool b => simp [repr_obj, repr_literal] at hro
        | vInt n => simp [repr_obj, repr_literal] at hro
        | vStr st => simp [repr_obj, repr_literal] at hro
        | vNull => simp [repr_obj, repr_literal] at hro
        | vCallable => simp [repr_obj, repr_literal] at hro
        | vRef i => simp [repr_obj, repr_literal] at hro
      obtain ⟨l, rfl⟩ := hlist
      refine ⟨_, solve_node_list hashStr hashTuple wlRaw pfx heap _ ⟨rest, closed, hs⟩
        r hs1 hb hro, ⟨?_, hClosed, hstable1, hNodup⟩, ?_⟩
      · intro u hu
        rcases List.mem_append.mp hu with h | h
        · exact le_trans (maxRefV_elemsOf u _ (List.mem_reverse.mp h)) hvB
        · exact hOpenRest u h
      · simp only [stateMeasure, sumSize_cons, sumSize_append, sumSize_reverse]
        have hsz : sumSize (elemsOf (Value.vList l)) = VList.lsize l := by
          simp [elemsOf, sumSize_toList]
        have hvs : vsize (Value.vList l) = 1 + VList.lsize l := by simp [vsize]
        omega
    · subst hk
      have hnl : nodeLike v = true := by
        cases v with
        | vList l => cases l <;> simp [repr_obj, repr_literal] at hro
        | vBool b => simp [repr_obj, repr_literal] at hro
        | vInt n => simp [repr_obj, repr_literal] at hro
        | vStr st => simp [repr_obj, repr_literal] at hro
        | vNull => rfl
        | vCallable => rfl
        | vRef i => rfl
      have hmk : make_uri hashStr hashTuple pfx hs (objOfV heap v) (oidOfV heap v) = (r, hs1) := by
        have h := repr_obj_node hashStr hashTuple pfx heap hs v hnl
        rw [hro] at h
        simp only [Prod.mk.injEq] at h
        exact Prod.ext h.1.symm h.2.2.symm
      by_cases hc : (closed.map Prod.fst).contains r = true
      · refine ⟨_, solve_node_node_closed hashStr hashTuple wlRaw pfx heap v ⟨rest, closed, hs⟩
          r hs1 hb hro hc, ⟨hOpenRest, hClosed, hstable1, hNodup⟩, ?_⟩
        simp only [stateMeasure, sumSize_cons]
        omega
      · rw [Bool.not_eq_true] at hc
        have hnewstable : make_uri hashStr hashTuple pfx hs1 (objOfV heap v) (oidOfV heap v) =
            (r, hs1) := by
          have hst := make_uri_stable hashStr hashTuple pfx hs hs1 (objOfV heap v) (oidOfV heap v)
            (by rw [hmk]; exact hextends_refl hs1)
          rw [hmk] at hst
          exact hst
        have hNodup2 : ((closed ++ [(r, v)]).map fun rv => oidOfV heap rv.2).Nodup := by
          rw [List.map_append]
          rw [List.nodup_append]
          refine ⟨hNodup, by simp, ?_⟩
          intro a ha hb2
          simp only [List.map_cons, List.map_nil, List.mem_singleton] at hb2
          subst hb2
          simp only [List.mem_map] at ha
          obtain ⟨rv, hrv, hoid⟩ := ha
          have hobj := oid_eq_obj_eq heap rv.2 v hoid
          have hstv := hStable rv hrv
          rw [hobj, hoid] at hstv
          rw [hmk] at hstv
          have hr : r = rv.1 := by
            have := congrArg Prod.fst hstv
            simpa using this
          have hmem : r ∈ closed.map Prod.fst := List.mem_map.mpr ⟨rv, hrv, hr.symm⟩
          have : (closed.map Prod.fst).contains r = true := List.elem_eq_true_of_mem hmem
          rw [this] at hc
          cases hc
        have hClosed2 : ∀ rv ∈ closed ++ [(r, v)], maxRefV rv.2 ≤ B := by
          intro rv hrv
          rcases List.mem_append.mp hrv with h | h
          · exact hClosed rv h
          · simp only [List.mem_singleton] at h
            subst h
            exact hvB
        have hlen2 := closed_len_le heap B (closed ++ [(r, v)]) hNodup2 hClosed2
        refine ⟨_, solve_node_node_fresh hashStr hashTuple wlRaw pfx heap v ⟨rest, closed, hs⟩
          r hs1 hb hro hc, ⟨?_, hClosed2, ?_, hNodup2⟩, ?_⟩
        · intro u hu
          rcases List.mem_append.mp hu with h | h
          · exact le_trans (maxRefV_pushed wlRaw heap v u (List.mem_reverse.mp h)) hBheap
          · exact hOpenRest u h
        · intro rv hrv
          rcases List.mem_append.mp hrv with h | h
          · exact hstable1 rv h
          · simp only [List.mem_singleton] at h
            subst h
            exact hnewstable
        · have hpush : sumSize (pushedValues wlRaw (objOfV heap v)) ≤ pushBound wlRaw heap :=
            pushed_le_pushBound wlRaw heap _ (objOfV_mem heap v)
          have hvs := nodeLike_vsize v hnl
          simp only [stateMeasure, sumSize_cons, sumSize_append, sumSize_reverse,
            List.length_append, List.length_cons, List.length_nil, Nat.zero_add, Nat.add_zero]
          have harith : B + 1 - closed.length = (B + 1 - (closed.length + 1)) + 1 := by
            simp only [List.length_append, List.length_cons, List.length_nil,
              Nat.zero_add, Nat.add_zero] at hlen2
            omega
          rw [harith, add_mul, one_mul]
          omega

theorem runLoop_reaches_empty (hashStr : String → Nat) (hashTuple : List (String × Value) → Nat)
    (wlRaw : List (String × WlEntryRaw)) (pfx : String) (heap : List Obj) (B : Nat)
    (hBheap : heapRefBound heap ≤ B) :
    ∀ (N : Nat) (s : TState), stateMeasure wlRaw heap B s ≤ N →
      traceINV hashStr hashTuple pfx heap B s →
      ∃ n s2, runLoop hashStr hashTuple wlRaw pfx heap n s = some s2 ∧ s2.openL = [] := by
  intro N
  induction N with
  | zero =>
    intro s hm hinv
    rcases hopen : s.openL with _ | ⟨v, rest⟩
    · exact ⟨0, s, rfl, hopen⟩
    · exfalso
      have : 1 ≤ sumSize s.openL := by
        rw [hopen, sumSize_cons]
        have := vsize_pos v
        omega
      simp only [stateMeasure] at hm
      omega
  | succ N ih =>
    intro s hm hinv
    rcases hopen : s.openL with _ | ⟨v, rest⟩
    · exact ⟨0, s, rfl, hopen⟩
    · have hs : s = ⟨v :: rest, s.closed, s.hashes⟩ := by
        cases s
        simp_all
      rw [hs] at hinv hm
      obtain ⟨s2, hsolve, hinv2, hlt⟩ := step_preserves hashStr hashTuple wlRaw pfx heap B
        hBheap v rest s.closed s.hashes hinv
      obtain ⟨n, s3, hrun, hempty⟩ := ih s2 (by omega) hinv2
      refine ⟨n + 1, s3, ?_, hempty⟩
      rw [hs]
      show runLoop hashStr hashTuple wlRaw pfx heap (n + 1) ⟨v :: rest, s.closed, s.hashes⟩ = some s3
      rw [runLoop]
      simp only [hsolve]
      exact hrun

theorem lookup_mem {l : List (Nat × Nat)} {k v : Nat} (h : l.lookup k = some v) : (k, v) ∈ l := by
  obtain ⟨l1, l2, rfl, -⟩ := List.lookup_eq_some_iff.mp h
  simp

theorem reprVList_length (hashStr : String → Nat) (hashTuple : List (String × Value) → Nat)
    (pfx : String) (heap : List Obj) :
    (l : VList) → ∀ hs, (reprVList hashStr hashTuple pfx heap hs l).1.length = l.toList.length
  | .nil, hs => rfl
  | .cons v vs, hs => by
    rcases h1 : repr_obj hashStr hashTuple pfx heap hs v with ⟨r, k, hs1⟩
    rcases h2 : reprVList hashStr hashTuple pfx heap hs1 vs with ⟨rs, hs2⟩
    have ih := reprVList_length hashStr hashTuple pfx heap vs hs1
    rw [h2] at ih
    simp [reprVList, h1, h2, VList.toList, ih]

/-! ### Claim theorems -/

/-- C1 (counterexample): in the two-node scenario (root `A` of admitted type
`TypeA`, whose only eligible property `next` holds `B` of admitted type
`TypeB` with no eligible properties), the run yields exactly three statements,
but the line claimed verbatim, `p:TypeB_1 a gcc:TypeB.`, is not among them:
`B` is numbered 2, because the sequential-identifier table is shared across
types. -/
theorem C1_counterexample :
    iter_triples hashStrZ hashTupleZ wlAB 10 "p" heapAB (.vRef 0) =
      some ["p:TypeA_1 a gcc:TypeA.", "p:TypeA_1 gcc:next p:TypeB_2.", "p:TypeB_2 a gcc:TypeB."] ∧
    "p:TypeB_1 a gcc:TypeB." ∉
      ["p:TypeA_1 a gcc:TypeA.", "p:TypeA_1 gcc:next p:TypeB_2.", "p:TypeB_2 a gcc:TypeB."] := by
  constructor
  · decide
  · decide

/-- C1 (amended): for every run of the two-node scenario (any hash functions;
they are not consulted, since both entities are identified by object
identity), `iter_triples` with prefix `p` yields exactly the three statements
`p:TypeA_1 a gcc:TypeA.`, `p:TypeA_1 gcc:next p:TypeB_2.` and
`p:TypeB_2 a gcc:TypeB.` — the second entity receives the sequential
identifier 2, not 1. -/
theorem C1_two_node_amended :
    ∀ (hashStr : String → Nat) (hashTuple : List (String × Value) → Nat),
      iter_triples hashStr hashTuple wlAB 10 "p" heapAB (.vRef 0) =
        some ["p:TypeA_1 a gcc:TypeA.", "p:TypeA_1 gcc:next p:TypeB_2.",
              "p:TypeB_2 a gcc:TypeB."] := by
  intro hS hT
  simp +decide [iter_triples, runLoop, solve_node, repr_obj, reprVList, make_uri, hash_of,
    initState, isBlacklistedV, objOfValue, objIdAt, objIdBase, propnamesFor, repr_literal,
    iter_relevant_props, whitelist, wlAB, heapAB, noneObj, yieldEntry, should_be_suppressed,
    filter_whitelist, to_be_suppressed, stripBrackets, elemsOf, getattrV, pyStartswith,
    isCallableV, isNoneV, BLACKLIST, TYPE_BLACKLIST, List.lookup, yield_triples, is_rdf_none,
    VList.toList, objOfV, oidOfV]

/-- C2 (counterexample): a property whose value has a blacklisted type is not
silently omitted from statements: in a run where admitted `TypeA`'s property
`ptr` holds a `PointerType` object, the statement
`p:TypeA_1 gcc:ptr p:PointerType_2.` is emitted (the blacklisted value gets a
minted URI at emission time), even though the value's type is blacklisted. -/
theorem C2_counterexample :
    iter_triples hashStrZ hashTupleZ wlPtr 10 "p" heapPtr (.vRef 0) =
      some ["p:TypeA_1 a gcc:TypeA.", "p:TypeA_1 gcc:ptr p:PointerType_2."] ∧
    isBlacklistedV heapPtr (.vRef 1) = true := by
  constructor
  · decide
  · decide

/-- C2 (amended): properties whose value is null never appear in any
statement (they are filtered before policy is consulted), and a value of a
blacklisted type contributes zero expansion and zero registration — the
traversal discards it with the state unchanged — but a parent's property
statement mentioning the blacklisted value is still emitted with a URI minted
at emission time. -/
theorem C2_omission_amended :
    (∀ (wlRaw : List (String × WlEntryRaw)) (o : Obj) (p : String) (e : Value) (ex : Bool),
        (p, e, ex) ∈ iter_relevant_props wlRaw o → e ≠ Value.vNull) ∧
    (∀ (hS : String → Nat) (hT : List (String × Value) → Nat)
        (wlRaw : List (String × WlEntryRaw)) (pfx : String) (heap : List Obj)
        (v : Value) (s : TState), isBlacklistedV heap v = true →
        solve_node hS hT wlRaw pfx heap v s = some s) ∧
    (iter_triples hashStrZ hashTupleZ wlPtr 10 "p" heapPtr (.vRef 0) =
      some ["p:TypeA_1 a gcc:TypeA.", "p:TypeA_1 gcc:ptr p:PointerType_2."]) := by
  refine ⟨?_, ?_, by decide⟩
  · intro wlRaw o p e ex hmem
    have h := iter_props_not_none wlRaw o p e ex hmem
    cases e <;> simp_all [isNoneV]
  · intro hS hT wlRaw pfx heap v s hb
    exact solve_node_blacklisted hS hT wlRaw pfx heap v s hb

/-- C2 (witness): the blacklisted `PointerType` value of the scenario is
discarded by `solve_node` with the traversal state unchanged. -/
theorem C2_omission_amended_witness :
    solve_node hashStrZ hashTupleZ wlPtr "p" heapPtr (.vRef 1) (initState (.vRef 0)) =
      some (initState (.vRef 0)) :=
  C2_omission_amended.2.1 hashStrZ hashTupleZ wlPtr "p" heapPtr (.vRef 1)
    (initState (.vRef 0)) (by decide)

/-- C3 (counterexample): the rendered representation of a non-empty ordered
sequence has no spaces inside the parentheses: the two-element list of
literals `1`, `2` renders as `(1 2)`, not `( 1 2 )` as the claim states. -/
theorem C3_counterexample :
    repr_obj hashStrZ hashTupleZ "p" [] [] (.vList (.cons (.vInt 1) (.cons (.vInt 2) .nil))) =
      ("(1 2)", "list", []) ∧
    "(1 2)" ≠ "( 1 2 )" := by
  constructor
  · decide
  · decide

/-- C3 (amended): a non-empty ordered sequence renders inline as
`(r1 r2 ... rN)` — the element representations joined by single spaces with
no flanking spaces — where the representations are produced left to right;
the list itself is never registered in the closed set (solving a list leaves
`closed` unchanged and pushes exactly its elements); and in the concrete list
scenario both element nodes additionally receive their own type
statements. -/
theorem C3_list_rendering_amended :
    (∀ (hS : String → Nat) (hT : List (String × Value) → Nat) (pfx : String)
        (heap : List Obj) (hs : List (Nat × Nat)) (e : Value) (es : VList),
      ∃ rs hs1, reprVList hS hT pfx heap hs (.cons e es) = (rs, hs1) ∧
        repr_obj hS hT pfx heap hs (.vList (.cons e es)) =
          ("(" ++ String.intercalate " " rs ++ ")", "list", hs1) ∧
        rs.length = (VList.cons e es).toList.length) ∧
    (∀ (hS : String → Nat) (hT : List (String × Value) → Nat)
        (wlRaw : List (String × WlEntryRaw)) (pfx : String) (heap : List Obj)
        (s : TState) (r : String) (hs1 : List (Nat × Nat)) (l : VList),
      isBlacklistedV heap (.vList l) = false →
      repr_obj hS hT pfx heap s.hashes (.vList l) = (r, "list", hs1) →
      solve_node hS hT wlRaw pfx heap (.vList l) s =
        some { s with hashes := hs1, openL := l.toList.reverse ++ s.openL }) ∧
    (∀ (hS : String → Nat) (hT : List (String × Value) → Nat),
      iter_triples hS hT wlArgs 10 "p" heapArgs (.vRef 0) =
        some ["p:TypeA_1 a gcc:TypeA.", "p:TypeA_1 gcc:args (p:TypeB_2 p:TypeB_3).",
              "p:TypeB_3 a gcc:TypeB.", "p:TypeB_2 a gcc:TypeB."]) := by
  refine ⟨?_, ?_, ?_⟩
  · intro hS hT pfx heap hs e es
    rcases hrl : reprVList hS hT pfx heap hs (.cons e es) with ⟨rs, hs1⟩
    refine ⟨rs, hs1, rfl, ?_, ?_⟩
    · simp [repr_obj, hrl]
    · have := reprVList_length hS hT pfx heap (.cons e es) hs
      rw [hrl] at this
      exact this
  · intro hS hT wlRaw pfx heap s r hs1 l hb hro
    have h := solve_node_list hS hT wlRaw pfx heap (.vList l) s r hs1 hb hro
    simpa [elemsOf] using h
  · intro hS hT
    simp +decide [iter_triples, runLoop, solve_node, repr_obj, reprVList, make_uri, hash_of,
      initState, isBlacklistedV, objOfValue, objIdAt, objIdBase, propnamesFor, repr_literal,
      iter_relevant_props, whitelist, wlArgs, heapArgs, noneObj, yieldEntry,
      should_be_suppressed, filter_whitelist, to_be_suppressed, stripBrackets, elemsOf,
      getattrV, pyStartswith, isCallableV, isNoneV, BLACKLIST, TYPE_BLACKLIST, List.lookup,
      yield_triples, is_rdf_none, VList.toList, objOfV, oidOfV]

/-- C3 (witness): solving the two-element `TypeB` list of the scenario pushes
exactly its elements and registers nothing. -/
theorem C3_list_rendering_amended_witness :
    solve_node hashStrZ hashTupleZ wlArgs "p" heapArgs
      (.vList (.cons (.vRef 1) (.cons (.vRef 2) .nil))) (initState (.vRef 0)) =
      some { openL := [.vRef 2, .vRef 1, .vRef 0], closed := [], hashes := [(2, 1), (3, 2)] } :=
  C3_list_rendering_amended.2.1 hashStrZ hashTupleZ wlArgs "p" heapArgs
    (initState (.vRef 0)) "(p:TypeB_1 p:TypeB_2)" [(2, 1), (3, 2)]
    (.cons (.vRef 1) (.cons (.vRef 2) .nil)) (by decide) (by decide)

/-- C4: a property declared suppressed (bracket-marked) for its type never
appears as a predicate: entries yielded with `express = true` are never
suppressed pairs, and every emitted line of a node is either its type
assertion or built from an `express = true` entry; yet the value of every
yielded property (suppressed included) is pushed onto the worklist when the
node is registered, so in the scenario where `B` is reachable only through
the suppressed property `hide` of `A`, `B` still receives its own type
statement while no `gcc:hide` statement is emitted. -/
theorem C4_suppression_contract :
    (∀ (wlRaw : List (String × WlEntryRaw)) (o : Obj) (p : String) (e : Value),
        (p, e, true) ∈ iter_relevant_props wlRaw o →
        (o.typeName, p) ∉ should_be_suppressed wlRaw) ∧
    (∀ (hS : String → Nat) (hT : List (String × Value) → Nat)
        (wlRaw : List (String × WlEntryRaw)) (pfx : String) (heap : List Obj)
        (node : Value) (hs : List (Nat × Nat)),
        ∃ rest, (yield_triples hS hT wlRaw pfx heap node hs).1 =
          ((repr_obj hS hT pfx heap hs node).1 ++ " a gcc:" ++
            (objOfV heap node).typeName ++ ".") :: rest ∧
          ∀ line ∈ rest, ∃ p e r,
            (p, e, true) ∈ iter_relevant_props wlRaw (objOfV heap node) ∧
            ((objOfV heap node).typeName, p) ∉ should_be_suppressed wlRaw ∧
            line = (repr_obj hS hT pfx heap hs node).1 ++ " gcc:" ++ p ++ " " ++ r ++ ".") ∧
    (∀ (hS : String → Nat) (hT : List (String × Value) → Nat)
        (wlRaw : List (String × WlEntryRaw)) (pfx : String) (heap : List Obj)
        (v : Value) (s : TState) (r : String) (hs1 : List (Nat × Nat)),
        isBlacklistedV heap v = false →
        repr_obj hS hT pfx heap s.hashes v = (r, "node", hs1) →
        (s.closed.map Prod.fst).contains r = false →
        solve_node hS hT wlRaw pfx heap v s =
          some { s with hashes := hs1,
                        closed := s.closed ++ [(r, v)],
                        openL := (pushedValues wlRaw (objOfV heap v)).reverse ++ s.openL }) ∧
    (∀ (hS : String → Nat) (hT : List (String × Value) → Nat),
        iter_triples hS hT wlHide 10 "p" heapHide (.vRef 0) =
          some ["p:TypeA_1 a gcc:TypeA.", "p:TypeB_2 a gcc:TypeB."]) := by
  refine ⟨iter_props_express_not_suppressed, ?_, solve_node_node_fresh, ?_⟩
  · intro hS hT wlRaw pfx heap node hs
    obtain ⟨rest, h1, h2⟩ := yield_triples_shape hS hT wlRaw pfx heap node hs
    refine ⟨rest, h1, ?_⟩
    intro line hline
    obtain ⟨p, e, r, hin, _, hl⟩ := h2 line hline
    exact ⟨p, e, r, hin, iter_props_express_not_suppressed wlRaw _ p e hin, hl⟩
  · intro hS hT
    simp +decide [iter_triples, runLoop, solve_node, repr_obj, reprVList, make_uri, hash_of,
      initState, isBlacklistedV, objOfValue, objIdAt, objIdBase, propnamesFor, repr_literal,
      iter_relevant_props, whitelist, wlHide, heapHide, noneObj, yieldEntry,
      should_be_suppressed, filter_whitelist, to_be_suppressed, stripBrackets, elemsOf,
      getattrV, pyStartswith, isCallableV, isNoneV, BLACKLIST, TYPE_BLACKLIST, List.lookup,
      yield_triples, is_rdf_none, VList.toList, objOfV, oidOfV]

/-- C4 (witness): registering `A` of the suppression scenario pushes the value
of the suppressed property `hide` onto the worklist. -/
theorem C4_suppression_contract_witness :
    solve_node hashStrZ hashTupleZ wlHide "p" heapHide (.vRef 0)
      { openL := [], closed := [], hashes := [] } =
      some { openL := [.vRef 1], closed := [("p:TypeA_1", .vRef 0)], hashes := [(1, 1)] } :=
  C4_suppression_contract.2.2.1 hashStrZ hashTupleZ wlHide "p" heapHide (.vRef 0)
    { openL := [], closed := [], hashes := [] } "p:TypeA_1" [(1, 1)] (by decide) (by decide)
    (by decide)

/-- C5: within one run, distinct identity hashes admitted to the table mint
distinct URIs (non-global kinds); a hash seen for the first time is assigned
the sequential identifier `len(table) + 1`; and minting only extends the
table, so an assigned identifier persists for the remainder of the run. -/
theorem C5_identity_injectivity :
    ∀ (hS : String → Nat) (hT : List (String × Value) → Nat) (pfx : String)
      (hs : List (Nat × Nat)) (o1 o2 : Obj) (oid1 oid2 : Nat),
      InvTable hs → isGlobalKind o1 = false → isGlobalKind o2 = false →
      hash_of hS hT o1 oid1 ≠ hash_of hS hT o2 oid2 →
      ((make_uri hS hT pfx hs o1 oid1).1 ≠
        (make_uri hS hT pfx (make_uri hS hT pfx hs o1 oid1).2 o2 oid2).1) ∧
      (hs.lookup (hash_of hS hT o1 oid1) = none →
        make_uri hS hT pfx hs o1 oid1 =
          (pfx ++ ":" ++ o1.typeName ++ "_" ++ toString (hs.length + 1),
           hs ++ [(hash_of hS hT o1 oid1, hs.length + 1)])) ∧
      HExtends hs (make_uri hS hT pfx hs o1 oid1).2 := by
  intro hS hT pfx hs o1 o2 oid1 oid2 hinv hg1 hg2 hne
  refine ⟨?_, fun hf => make_uri_fresh hS hT pfx hs o1 oid1 hg1 hf,
    make_uri_extends hS hT pfx hs o1 oid1⟩
  obtain ⟨hnd, hbd⟩ := hinv
  cases hf1 : hs.lookup (hash_of hS hT o1 oid1) with
  | some i1 =>
    rw [make_uri_found hS hT pfx hs o1 oid1 i1 hg1 hf1]
    dsimp only
    cases hf2 : hs.lookup (hash_of hS hT o2 oid2) with
    | some i2 =>
      rw [make_uri_found hS hT pfx hs o2 oid2 i2 hg2 hf2]
      dsimp only
      apply uri_ne_of_id_ne
      intro hi
      subst hi
      have heq := List.inj_on_of_nodup_map hnd (lookup_mem hf1) (lookup_mem hf2) rfl
      exact hne (congrArg Prod.fst heq)
    | none =>
      rw [make_uri_fresh hS hT pfx hs o2 oid2 hg2 hf2]
      dsimp only
      apply uri_ne_of_id_ne
      have hmem : i1 ∈ hs.map Prod.snd := List.mem_map.mpr ⟨_, lookup_mem hf1, rfl⟩
      have := hbd i1 hmem
      omega
  | none =>
    rw [make_uri_fresh hS hT pfx hs o1 oid1 hg1 hf1]
    dsimp only
    have hsingle : ([(hash_of hS hT o1 oid1, hs.length + 1)] : List (Nat × Nat)).lookup
        (hash_of hS hT o2 oid2) = none := by
      have hb : (hash_of hS hT o2 oid2 == hash_of hS hT o1 oid1) = false :=
        beq_eq_false_iff_ne.mpr (Ne.symm hne)
      simp [List.lookup, hb]
    have hl2 : (hs ++ [(hash_of hS hT o1 oid1, hs.length + 1)]).lookup
        (hash_of hS hT o2 oid2) = hs.lookup (hash_of hS hT o2 oid2) := by
      rw [List.lookup_append, hsingle]
      cases hs.lookup (hash_of hS hT o2 oid2) <;> rfl
    cases hf2 : hs.lookup (hash_of hS hT o2 oid2) with
    | some i2 =>
      rw [make_uri_found hS hT pfx _ o2 oid2 i2 hg2 (by rw [hl2, hf2])]
      dsimp only
      apply uri_ne_of_id_ne
      have hmem : i2 ∈ hs.map Prod.snd := List.mem_map.mpr ⟨_, lookup_mem hf2, rfl⟩
      have := hbd i2 hmem
      omega
    | none =>
      rw [make_uri_fresh hS hT pfx _ o2 oid2 hg2 (by rw [hl2, hf2])]
      dsimp only
      apply uri_ne_of_id_ne
      simp only [List.length_append, List.length_cons, List.length_nil]
      omega

/-- C5 (witness): two distinct identities minted into an empty table receive
the distinct URIs `p:TypeA_1` and `p:TypeB_2`. -/
theorem C5_identity_injectivity_witness :
    ((make_uri hashStrZ hashTupleZ "p" [] { typeName := "TypeA", attrs := [], strNoUid := none }
        1).1 ≠
      (make_uri hashStrZ hashTupleZ "p"
        (make_uri hashStrZ hashTupleZ "p" []
          { typeName := "TypeA", attrs := [], strNoUid := none } 1).2
        { typeName := "TypeB", attrs := [], strNoUid := none } 2).1) ∧
    (([] : List (Nat × Nat)).lookup
        (hash_of hashStrZ hashTupleZ { typeName := "TypeA", attrs := [], strNoUid := none } 1) =
          none →
      make_uri hashStrZ hashTupleZ "p" []
          { typeName := "TypeA", attrs := [], strNoUid := none } 1 =
        ("p" ++ ":" ++ "TypeA" ++ "_" ++ toString (List.length ([] : List (Nat × Nat)) + 1),
         [] ++ [(hash_of hashStrZ hashTupleZ
            { typeName := "TypeA", attrs := [], strNoUid := none } 1,
           List.length ([] : List (Nat × Nat)) + 1)])) ∧
    HExtends []
      (make_uri hashStrZ hashTupleZ "p" []
        { typeName := "TypeA", attrs := [], strNoUid := none } 1).2 :=
  C5_identity_injectivity hashStrZ hashTupleZ "p" []
    { typeName := "TypeA", attrs := [], strNoUid := none }
    { typeName := "TypeB", attrs := [], strNoUid := none } 1 2
    (by constructor <;> simp) (by decide) (by decide) (by decide)

/-- C6: minting is idempotent and stable: a second call for the same entity on
the table produced by the first returns the same string, and more generally
any later table that preserves the bindings of the first call's table yields
the same string. -/
theorem C6_idempotent_minting :
    (∀ (hS : String → Nat) (hT : List (String × Value) → Nat) (pfx : String)
        (hs : List (Nat × Nat)) (o : Obj) (oid : Nat),
      make_uri hS hT pfx (make_uri hS hT pfx hs o oid).2 o oid =
        ((make_uri hS hT pfx hs o oid).1, (make_uri hS hT pfx hs o oid).2)) ∧
    (∀ (hS : String → Nat) (hT : List (String × Value) → Nat) (pfx : String)
        (hs hs2 : List (Nat × Nat)) (o : Obj) (oid : Nat),
      HExtends (make_uri hS hT pfx hs o oid).2 hs2 →
      make_uri hS hT pfx hs2 o oid = ((make_uri hS hT pfx hs o oid).1, hs2)) := by
  constructor
  · intro hS hT pfx hs o oid
    exact make_uri_stable hS hT pfx hs _ o oid (hextends_refl _)
  · intro hS hT pfx hs hs2 o oid hext
    exact make_uri_stable hS hT pfx hs hs2 o oid hext

/-- C6 (witness): re-minting `TypeA` on the table its first minting produced
returns the same URI and the unchanged table. -/
theorem C6_idempotent_minting_witness :
    make_uri hashStrZ hashTupleZ "p"
        (make_uri hashStrZ hashTupleZ "p" []
          { typeName := "TypeA", attrs := [], strNoUid := none } 1).2
        { typeName := "TypeA", attrs := [], strNoUid := none } 1 =
      ((make_uri hashStrZ hashTupleZ "p" []
          { typeName := "TypeA", attrs := [], strNoUid := none } 1).1,
       (make_uri hashStrZ hashTupleZ "p" []
          { typeName := "TypeA", attrs := [], strNoUid := none } 1).2) :=
  C6_idempotent_minting.2 hashStrZ hashTupleZ "p" [] _
    { typeName := "TypeA", attrs := [], strNoUid := none } 1 (hextends_refl _)

/-- C7: the worklist loop always terminates on the (finite) embedded object
graph: the type blacklist discards a blacklisted value before any expansion,
the closed-set membership check stops re-expansion of an already-seen
identity, and for every heap, policy and root there is a fuel with which
`runLoop` drains the worklist and `iter_triples` produces its statements. -/
theorem C7_termination :
    (∀ (hS : String → Nat) (hT : List (String × Value) → Nat)
        (wlRaw : List (String × WlEntryRaw)) (pfx : String) (heap : List Obj)
        (v : Value) (s : TState), isBlacklistedV heap v = true →
        solve_node hS hT wlRaw pfx heap v s = some s) ∧
    (∀ (hS : String → Nat) (hT : List (String × Value) → Nat)
        (wlRaw : List (String × WlEntryRaw)) (pfx : String) (heap : List Obj)
        (v : Value) (s : TState) (r : String) (hs1 : List (Nat × Nat)),
        isBlacklistedV heap v = false →
        repr_obj hS hT pfx heap s.hashes v = (r, "node", hs1) →
        (s.closed.map Prod.fst).contains r = true →
        solve_node hS hT wlRaw pfx heap v s = some { s with hashes := hs1 }) ∧
    (∀ (hS : String → Nat) (hT : List (String × Value) → Nat)
        (wlRaw : List (String × WlEntryRaw)) (pfx : String) (heap : List Obj)
        (start : Value), ∃ fuel s2,
        runLoop hS hT wlRaw pfx heap fuel (initState start) = some s2 ∧ s2.openL = [] ∧
        ∃ out, iter_triples hS hT wlRaw fuel pfx heap start = some out) := by
  refine ⟨solve_node_blacklisted, solve_node_node_closed, ?_⟩
  intro hS hT wlRaw pfx heap start
  have hINV : traceINV hS hT pfx heap (max (maxRefV start) (heapRefBound heap))
      (initState start) := by
    refine ⟨?_, ?_, ?_, ?_⟩
    · intro u hu
      simp only [initState, List.mem_singleton] at hu
      subst hu
      exact le_max_left _ _
    · intro rv hrv
      simp [initState] at hrv
    · intro rv hrv
      simp [initState] at hrv
    · simp [initState]
  obtain ⟨n, s2, hrun, hempty⟩ := runLoop_reaches_empty hS hT wlRaw pfx heap
    (max (maxRefV start) (heapRefBound heap)) (le_max_right _ _)
    (stateMeasure wlRaw heap (max (maxRefV start) (heapRefBound heap)) (initState start))
    (initState start) le_rfl hINV
  refine ⟨n, s2, hrun, hempty, ?_⟩
  simp only [iter_triples, hrun, hempty]
  exact ⟨_, rfl⟩

/-- C7 (witness): a blacklisted `PointerType` value is discarded with the
state unchanged. -/
theorem C7_termination_witness :
    solve_node hashStrZ hashTupleZ wlPtr "p" heapPtr (.vRef 1)
      { openL := [], closed := [], hashes := [] } =
      some { openL := [], closed := [], hashes := [] } :=
  C7_termination.1 hashStrZ hashTupleZ wlPtr "p" heapPtr (.vRef 1)
    { openL := [], closed := [], hashes := [] } (by decide)

/-- C8: the classifier is total — `repr_obj` always reports `"literal"`,
`"list"` or `"node"` — so the `assert False` branch of `solve_node` (modelled
as the `none` result) is unreachable: `solve_node` always returns a state. -/
theorem C8_fail_loudly_guard :
    (∀ (hS : String → Nat) (hT : List (String × Value) → Nat) (pfx : String)
        (heap : List Obj) (hs : List (Nat × Nat)) (v : Value),
        (repr_obj hS hT pfx heap hs v).2.1 = "literal" ∨
        (repr_obj hS hT pfx heap hs v).2.1 = "list" ∨
        (repr_obj hS hT pfx heap hs v).2.1 = "node") ∧
    (∀ (hS : String → Nat) (hT : List (String × Value) → Nat)
        (wlRaw : List (String × WlEntryRaw)) (pfx : String) (heap : List Obj)
        (v : Value) (s : TState),
        (solve_node hS hT wlRaw pfx heap v s).isSome = true) := by
  refine ⟨fun hS hT pfx heap hs v => repr_obj_kind hS hT pfx heap hs v, ?_⟩
  intro hS hT wlRaw pfx heap v s
  by_cases hb : isBlacklistedV heap v = true
  · rw [solve_node_blacklisted hS hT wlRaw pfx heap v s hb]
    rfl
  · rw [Bool.not_eq_true] at hb
    rcases hro : repr_obj hS hT pfx heap s.hashes v with ⟨r, k, hs1⟩
    have hkind := repr_obj_kind hS hT pfx heap s.hashes v
    rw [hro] at hkind
    dsimp only at hkind
    rcases hkind with hk | hk | hk
    · subst hk
      rw [solve_node_literal hS hT wlRaw pfx heap v s r hs1 hb hro]
      rfl
    · subst hk
      rw [solve_node_list hS hT wlRaw pfx heap v s r hs1 hb hro]
      rfl
    · subst hk
      by_cases hc : (s.closed.map Prod.fst).contains r = true
      · rw [solve_node_node_closed hS hT wlRaw pfx heap v s r hs1 hb hro hc]
        rfl
      · rw [Bool.not_eq_true] at hc
        rw [solve_node_node_fresh hS hT wlRaw pfx heap v s r hs1 hb hro hc]
        rfl

/-- C9 (counterexample): a null value reached outside property position is not
the omission sentinel: `repr_obj` classifies bare `None` as a node and mints
`p:NoneType_1`, and a run whose root list contains `None` emits the statement
`p:NoneType_1 a gcc:NoneType.` — the null is rendered. -/
theorem C9_counterexample :
    repr_obj hashStrZ hashTupleZ "p" [] [] Value.vNull =
      ("p:NoneType_1", "node", [(noneId, 1)]) ∧
    iter_triples hashStrZ hashTupleZ [] 10 "p" [] (.vList (.cons .vNull .nil)) =
      some ["p:NoneType_1 a gcc:NoneType."] := by
  constructor
  · decide
  · decide

/-- C9 (amended): `repr_literal` maps null to the omission sentinel, and null
property values are excluded by `iter_relevant_props` before the policy is
consulted, so they never yield statements; but a null reached as a list
element or worklist item is classified by `repr_obj` as a node (and rendered
as a minted `NoneType` URI), not as the omission sentinel. -/
theorem C9_null_amended :
    (repr_literal Value.vNull = none) ∧
    (∀ (wlRaw : List (String × WlEntryRaw)) (o : Obj) (p : String) (e : Value) (ex : Bool),
        (p, e, ex) ∈ iter_relevant_props wlRaw o → e ≠ Value.vNull) ∧
    (∀ (hS : String → Nat) (hT : List (String × Value) → Nat) (pfx : String)
        (heap : List Obj) (hs : List (Nat × Nat)),
        (repr_obj hS hT pfx heap hs Value.vNull).2.1 = "node") := by
  refine ⟨rfl, ?_, ?_⟩
  · intro wlRaw o p e ex hmem
    have h := iter_props_not_none wlRaw o p e ex hmem
    cases e <;> simp_all [isNoneV]
  · intro hS hT pfx heap hs
    rw [repr_obj_node hS hT pfx heap hs Value.vNull rfl]

/-- C9 (witness): the value of the scenario property `ptr` yielded by
`iter_relevant_props` is not null. -/
theorem C9_null_amended_witness : Value.vRef 1 ≠ Value.vNull :=
  C9_null_amended.2.1 wlPtr { typeName := "TypeA", attrs := [("ptr", .vRef 1)], strNoUid := none }
    "ptr" (.vRef 1) true (by
      have h : iter_relevant_props wlPtr
          { typeName := "TypeA", attrs := [("ptr", .vRef 1)], strNoUid := none } =
          [("ptr", .vRef 1, true)] := by
        simp +decide [iter_relevant_props, whitelist, wlPtr, filter_whitelist, to_be_suppressed,
          stripBrackets, yieldEntry, should_be_suppressed, pyStartswith, BLACKLIST,
          isCallableV, isNoneV, List.lookup]
      rw [h]
      exact List.mem_singleton.mpr rfl)

/-- C10: the hash-to-identifier table is shared by all entity types — a fresh
hash is assigned `len(table) + 1` no matter the object's type, the assigned
identifiers are pairwise distinct across the whole run (so the numeric suffix
is globally unique), and in a concrete two-type run the first `TypeY` entity
is numbered 2, not 1. -/
theorem C10_shared_counter :
    (∀ (hS : String → Nat) (hT : List (String × Value) → Nat) (pfx : String)
        (hs : List (Nat × Nat)) (o : Obj) (oid : Nat),
        isGlobalKind o = false →
        hs.lookup (hash_of hS hT o oid) = none →
        make_uri hS hT pfx hs o oid =
          (pfx ++ ":" ++ o.typeName ++ "_" ++ toString (hs.length + 1),
           hs ++ [(hash_of hS hT o oid, hs.length + 1)])) ∧
    (∀ (hS : String → Nat) (hT : List (String × Value) → Nat) (pfx : String)
        (hs : List (Nat × Nat)) (o : Obj) (oid : Nat),
        InvTable hs → InvTable (make_uri hS hT pfx hs o oid).2) ∧
    (∀ (hS : String → Nat) (hT : List (String × Value) → Nat),
        iter_triples hS hT wlXY 10 "p" heapXY (.vRef 0) =
          some ["p:TypeX_1 a gcc:TypeX.", "p:TypeX_1 gcc:succ p:TypeY_2.",
                "p:TypeY_2 a gcc:TypeY."]) := by
  refine ⟨make_uri_fresh, invTable_make_uri, ?_⟩
  intro hS hT
  simp +decide [iter_triples, runLoop, solve_node, repr_obj, reprVList, make_uri, hash_of,
    initState, isBlacklistedV, objOfValue, objIdAt, objIdBase, propnamesFor, repr_literal,
    iter_relevant_props, whitelist, wlXY, heapXY, noneObj, yieldEntry, should_be_suppressed,
    filter_whitelist, to_be_suppressed, stripBrackets, elemsOf, getattrV, pyStartswith,
    isCallableV, isNoneV, BLACKLIST, TYPE_BLACKLIST, List.lookup, yield_triples, is_rdf_none,
    VList.toList, objOfV, oidOfV]

/-- C10 (witness): minting a fresh `TypeY` identity into a one-entry table
assigns the identifier 2. -/
theorem C10_shared_counter_witness :
    make_uri hashStrZ hashTupleZ "p" [(5, 1)]
        { typeName := "TypeY", attrs := [], strNoUid := none } 7 =
      ("p" ++ ":" ++ "TypeY" ++ "_" ++
        toString (([(5, 1)] : List (Nat × Nat)).length + 1),
       [(5, 1)] ++ [(hash_of hashStrZ hashTupleZ
          { typeName := "TypeY", attrs := [], strNoUid := none } 7,
         ([(5, 1)] : List (Nat × Nat)).length + 1)]) :=
  C10_shared_counter.1 hashStrZ hashTupleZ "p" [(5, 1)]
    { typeName := "TypeY", attrs := [], strNoUid := none } 7 (by decide) (by decide)
